import Mathlib

/-!
C-SCAN I/O scheduler (TP3/cscan.c): embedding and verified properties

The scheduler state `struct cscan_data` is embedded as a record of lists, the kernel's
intrusive lists becoming `List`s in list order (head first).  Every `kmalloc` result is
an input of the operation that performs it, and the calls of `elv_dispatch_sort` and of
`printk` are outputs, in call order.
-/

set_option linter.unusedVariables false

namespace Cscan

/-! ## Data model -/

/-- A block request as the scheduler uses it: `id` stands for the identity of the
`struct request` node (its address), `sector` is `blk_rq_pos(rq)`. -/
structure request where
  id : Nat
  sector : Nat
  deriving DecidableEq, Repr

/-- The largest `unsigned long` (64-bit kernel), the start value of `min_sector`. -/
def ULONG_MAX : Nat := 18446744073709551615

/-- The errno value behind `-ENOMEM`. -/
def ENOMEM : Int := 12

/-- The local `max_sector` of `cscan_dispatch`, the sector of the closing sentinel. -/
def max_sector : Nat := 2097152

/-- A request is well formed when its sector fits an `unsigned long`. -/
def request.wf (rq : request) : Prop := rq.sector ≤ ULONG_MAX

instance (rq : request) : Decidable rq.wf := by
  unfold request.wf; exact inferInstance

/-- The module parameters `cscan_queue_size`, `cscan_max_wait` and `cscan_debug`. -/
structure module_params where
  cscan_queue_size : Int
  cscan_max_wait : Int
  cscan_debug : Int
  deriving DecidableEq, Repr

/-- The defaults the source gives the three module parameters. -/
def default_params : module_params :=
  { cscan_queue_size := 10, cscan_max_wait := 100, cscan_debug := 1 }

/-- The fields of `struct timer_list` the scheduler touches: `data` (0 is NULL) and the
expiry set by `mod_timer` (`none` while the timer is not pending). -/
structure timer_list where
  data : Nat
  expires : Option Int
  deriving DecidableEq, Repr

/-- The scheduler data `struct cscan_data`.  `processed_list` holds one list of sectors
per `struct processed_list` block, oldest block first.  `request_count` is a C `int`;
the embedding keeps it an unbounded integer, which agrees with the code as long as
fewer than 2^31 requests are queued. -/
structure cscan_data where
  queue : List request
  dispatch_timer : timer_list
  request_count : Int
  processed_list : List (List Nat)
  deriving DecidableEq, Repr

/-- The lines written with `printk`, one constructor per call site. -/
inductive printk_msg where
  | dispatch_empty
  | dispatch_sorting
  | dispatch_start
  | dispatch_block_alloc_failed
  | dispatch_first_sector
  | dispatch_sector_alloc_failed
  | dispatch_sector (sector : Nat) (remaining : Int)
  | dispatch_last_sector (sector : Nat)
  | block_sectors (sectors : List Nat)
  | dispatch_end_of_disk
  | dispatch_back_to_start
  | add_sector (sector : Nat)
  | add_queue_full
  | timer_invalid
  deriving DecidableEq, Repr

/-- The results of the `kmalloc` calls of one `cscan_dispatch`, `true` for a non-NULL
result: the block, the opening sentinel, the node of the k-th pass of the drain loop
(k from 0), and the closing sentinel. -/
structure alloc_outcome where
  block : Bool
  first_sentinel : Bool
  sector : Nat → Bool
  last_sentinel : Bool

/-- The outcome in which every allocation succeeds. -/
def alloc_ok : alloc_outcome :=
  { block := true, first_sentinel := true, sector := fun _ => true, last_sentinel := true }

/-- Messages guarded by `if (cscan_debug)`. -/
def dbg (p : module_params) (msgs : List printk_msg) : List printk_msg :=
  if p.cscan_debug ≠ 0 then msgs else []

/-! ## sort_queue -/

/-- The inner loop of `sort_queue` (`list_for_each_entry_safe` over the queue), threading
`min_rq` and `min_sector`; the comparison is the strict `sector < min_sector`. -/
def scan_min : List request → Option request → Nat → Option request × Nat
  | [], min_rq, min_sector => (min_rq, min_sector)
  | rq :: rest, min_rq, min_sector =>
    if rq.sector < min_sector then scan_min rest (some rq) rq.sector
    else scan_min rest min_rq min_sector

/-- The outer `while (!list_empty(&cd->queue))` loop of `sort_queue`, run for at most
`fuel` passes; the arguments are `cd->queue` and the local `sorted_queue`.  Each pass
starts from `min_rq = NULL`, `min_sector = ULONG_MAX`.  When the scan selects a request
it is unlinked from the queue and linked at the tail of `sorted_queue`; when it selects
none (`min_rq` still NULL) nothing changes and the loop condition is tested again.
`none` is returned when the fuel ends before the queue is empty. -/
def sort_loop : Nat → List request → List request → Option (List request)
  | _, [], sorted_queue => some sorted_queue
  | 0, _ :: _, _ => none
  | fuel + 1, rq :: rest, sorted_queue =>
    match (scan_min (rq :: rest) none ULONG_MAX).1 with
    | some min_rq =>
      sort_loop fuel ((rq :: rest).erase min_rq) (sorted_queue ++ [min_rq])
    | none => sort_loop fuel (rq :: rest) sorted_queue

/-- The function `sort_queue`: the loop above, then `list_splice_tail_init` of
`sorted_queue` onto the (now empty) queue.  The fuel is the queue length: a pass either
moves one request or changes nothing at all, so the loop exits within that many passes
or never (`sort_loop_fuel`, `sort_loop_stuck`); `none` stands for the run that never
leaves the loop. -/
def sort_queue (queue : List request) : Option (List request) :=
  sort_loop queue.length queue []

/-! ## cscan_dispatch -/

/-- What the drain loop of `cscan_dispatch` updates: `cd->request_count`, the sectors of
the block under construction, the `elv_dispatch_sort` calls and the `printk` lines. -/
structure sweep where
  request_count : Int
  sectors : List Nat
  dispatched : List request
  printk : List printk_msg
  deriving DecidableEq, Repr

/-- The loop `while (!list_empty(&cd->queue))` of `cscan_dispatch`, pass number `k` on
the remaining queue.  The first request is unlinked and `request_count` decremented;
then the sector node is allocated: on failure the pass ends there (`continue`), on
success the sector is appended to the block and the request handed to
`elv_dispatch_sort`.  (`list_first_entry` of a non-empty list is never NULL, so the
`!rq` branch is not reachable.) -/
def drain_loop (p : module_params) (alloc_sector : Nat → Bool) :
    Nat → List request → sweep → sweep
  | _, [], s => s
  | k, rq :: rest, s =>
    if alloc_sector k then
      drain_loop p alloc_sector (k + 1) rest
        { request_count := s.request_count - 1
          sectors := s.sectors ++ [rq.sector]
          dispatched := s.dispatched ++ [rq]
          printk := s.printk ++ dbg p [printk_msg.dispatch_sector rq.sector (s.request_count - 1)] }
    else
      drain_loop p alloc_sector (k + 1) rest
        { request_count := s.request_count - 1
          sectors := s.sectors
          dispatched := s.dispatched
          printk := s.printk ++ [printk_msg.dispatch_sector_alloc_failed] }

/-- What a call of `cscan_dispatch` yields: the return value, the scheduler data
afterwards, the requests passed to `elv_dispatch_sort` in call order, and the `printk`
lines. -/
structure dispatch_result where
  ret : Int
  cd : cscan_data
  dispatched : List request
  printk : List printk_msg
  deriving DecidableEq, Repr

/-- The function `cscan_dispatch(q, force)` on the scheduler data `cd` of `q`, with the
allocation results `a`.  `none` stands for the call that never returns (its
`sort_queue` does not leave its loop). -/
def cscan_dispatch (p : module_params) (cd : cscan_data) (force : Int) (a : alloc_outcome) :
    Option dispatch_result :=
  match cd.queue with
  | [] =>
    some { ret := 0, cd := cd, dispatched := [], printk := dbg p [printk_msg.dispatch_empty] }
  | rq :: rest =>
    match sort_queue (rq :: rest) with
    | none => none
    | some sorted =>
      let pre := dbg p [printk_msg.dispatch_sorting] ++ dbg p [printk_msg.dispatch_start]
      if a.block then
        let s0 : sweep :=
          { request_count := cd.request_count
            sectors := if a.first_sentinel then [0] else []
            dispatched := []
            printk := pre ++ (if a.first_sentinel then dbg p [printk_msg.dispatch_first_sector] else []) }
        let s1 := drain_loop p a.sector 0 sorted s0
        let sectors := if a.last_sentinel then s1.sectors ++ [max_sector] else s1.sectors
        some
          { ret := 1
            cd :=
              { queue := []
                dispatch_timer := cd.dispatch_timer
                request_count := s1.request_count
                processed_list := cd.processed_list ++ [sectors] }
            dispatched := s1.dispatched
            printk :=
              s1.printk
                ++ (if a.last_sentinel then dbg p [printk_msg.dispatch_last_sector max_sector] else [])
                ++ [printk_msg.block_sectors sectors]
                ++ dbg p [printk_msg.dispatch_end_of_disk, printk_msg.dispatch_back_to_start] }
      else
        some
          { ret := -ENOMEM
            cd := { cd with queue := sorted }
            dispatched := []
            printk := pre ++ dbg p [printk_msg.dispatch_block_alloc_failed] }

/-! ## cscan_add_request, cscan_init_queue -/

/-- What a call of `cscan_add_request` (a `void` function) yields: the scheduler data
afterwards, the `elv_dispatch_sort` calls, the `printk` lines, and the return value of
the `cscan_dispatch` it called, if it called it. -/
structure call_result where
  cd : cscan_data
  dispatched : List request
  printk : List printk_msg
  dispatch_ret : Option Int
  deriving DecidableEq, Repr

/-- The function `cscan_add_request(q, rq)`: the request is linked at the tail of the
queue, `request_count` incremented, and when `request_count >= cscan_queue_size` the
queue is dispatched with `force = 1` (allocation results `a`). -/
def cscan_add_request (p : module_params) (cd : cscan_data) (rq : request) (a : alloc_outcome) :
    Option call_result :=
  let cd1 : cscan_data :=
    { cd with queue := cd.queue ++ [rq], request_count := cd.request_count + 1 }
  let pre := dbg p [printk_msg.add_sector rq.sector]
  if cd1.request_count ≥ p.cscan_queue_size then
    match cscan_dispatch p cd1 1 a with
    | none => none
    | some r =>
      some
        { cd := r.cd
          dispatched := r.dispatched
          printk := pre ++ [printk_msg.add_queue_full] ++ r.printk
          dispatch_ret := some r.ret }
  else
    some { cd := cd1, dispatched := [], printk := pre, dispatch_ret := none }

/-- The function `cscan_init_queue(q, e)`: the return value and the scheduler data it
installs.  `alloc_eq` and `alloc_cd` are the results of `elevator_alloc` and of the
`kmalloc` of the data; when either fails the call returns `-ENOMEM` and installs
nothing.  Otherwise the data has an empty queue, an empty processed list,
`request_count = 0`, and its timer carries the address `q` of the request queue and is
armed `cscan_max_wait` milliseconds ahead. -/
def cscan_init_queue (p : module_params) (msecs_to_jiffies : Int → Int) (jiffies : Int)
    (q : Nat) (alloc_eq alloc_cd : Bool) : Int × Option cscan_data :=
  if alloc_eq then
    if alloc_cd then
      (0, some
        { queue := []
          dispatch_timer :=
            { data := q, expires := some (jiffies + msecs_to_jiffies p.cscan_max_wait) }
          request_count := 0
          processed_list := [] })
    else (-ENOMEM, none)
  else (-ENOMEM, none)

/-! ## The timer callback -/

/-- What lies at an address, as far as the pointers of the scheduler go: a
`struct request_queue`, of which only `q->elevator->elevator_data` is kept (an address),
or a `struct cscan_data`. -/
inductive object where
  | request_queue (elevator_data : Nat)
  | scheduler (cd : cscan_data)

/-- Typed memory: the object that lies at an address, if any.  Address 0 is NULL. -/
def memory : Type := Nat → Option object

/-- The memory after a store to the object at `addr`. -/
def memory.write (mem : memory) (addr : Nat) (o : object) : memory :=
  fun x => if x = addr then some o else mem x

/-- How a call that works through pointers ends: it returns, it never returns (its
`sort_queue` does not leave its loop), or it has no defined result because it reads a
structure through a pointer to an object that is not of that type. -/
inductive outcome (α : Type) where
  | returns (x : α)
  | hangs
  | undefined

/-- What a firing of the timer callback yields when it returns: the memory afterwards,
the `elv_dispatch_sort` calls, the `printk` lines, and the return value of the
`cscan_dispatch` it called, if it called it. -/
structure firing where
  mem : memory
  dispatched : List request
  printk : List printk_msg
  dispatch_ret : Option Int

/-- The effect of `mod_timer(&cd->dispatch_timer, jiffies + msecs_to_jiffies(cscan_max_wait))`
on the scheduler data that holds the timer; `msecs_to_jiffies` is the kernel conversion,
which the source does not contain. -/
def mod_timer (p : module_params) (msecs_to_jiffies : Int → Int) (jiffies : Int)
    (cd : cscan_data) : cscan_data :=
  { cd with
    dispatch_timer :=
      { cd.dispatch_timer with expires := some (jiffies + msecs_to_jiffies p.cscan_max_wait) } }

/-- The call `cscan_dispatch(q, force)` on the address `q`: the scheduler data is read
through `q->elevator->elevator_data`, which needs a request queue at `q`; a NULL data
pointer makes the call return 0, and otherwise the dispatch runs on the scheduler data
at that address and is stored back.  Yields the memory afterwards, the
`elv_dispatch_sort` calls, the `printk` lines and the return value. -/
def cscan_dispatch_at (p : module_params) (mem : memory) (q : Nat) (force : Int)
    (a : alloc_outcome) : outcome (memory × List request × List printk_msg × Int) :=
  match mem q with
  | some (object.request_queue e) =>
    if e = 0 then outcome.returns (mem, [], dbg p [printk_msg.dispatch_empty], 0)
    else
      match mem e with
      | some (object.scheduler cd) =>
        match cscan_dispatch p cd force a with
        | none => outcome.hangs
        | some r =>
          outcome.returns (mem.write e (object.scheduler r.cd), r.dispatched, r.printk, r.ret)
      | _ => outcome.undefined
  | _ => outcome.undefined

/-- The timer callback `cscan_dispatch_timer(data)` on its argument, an address.  The
argument is cast to `struct cscan_data *`: NULL makes the callback return at once, and
every later access `cd->...` needs a `struct cscan_data` at that address.  With a NULL
`cd->dispatch_timer.data` the callback returns without re-arming.  Otherwise, when
`cd->request_count > 0`, `cd->dispatch_timer.data` is cast to `struct request_queue *`
and `cscan_dispatch(q, 1)` is called on it; then `mod_timer` re-arms `cd->dispatch_timer`.
`jiffies` is the clock value read by `mod_timer`. -/
def cscan_dispatch_timer (p : module_params) (msecs_to_jiffies : Int → Int) (jiffies : Int)
    (mem : memory) (data : Nat) (a : alloc_outcome) : outcome firing :=
  if data = 0 then
    outcome.returns
      { mem := mem, dispatched := [], printk := [printk_msg.timer_invalid], dispatch_ret := none }
  else
    match mem data with
    | some (object.scheduler cd) =>
      if cd.dispatch_timer.data = 0 then
        outcome.returns
          { mem := mem, dispatched := [], printk := [printk_msg.timer_invalid],
            dispatch_ret := none }
      else if cd.request_count > 0 then
        match cscan_dispatch_at p mem cd.dispatch_timer.data 1 a with
        | outcome.returns r =>
          match r.1 data with
          | some (object.scheduler cd1) =>
            outcome.returns
              { mem := r.1.write data (object.scheduler (mod_timer p msecs_to_jiffies jiffies cd1))
                dispatched := r.2.1
                printk := r.2.2.1
                dispatch_ret := some r.2.2.2 }
          | _ => outcome.undefined
        | outcome.hangs => outcome.hangs
        | outcome.undefined => outcome.undefined
      else
        outcome.returns
          { mem := mem.write data (object.scheduler (mod_timer p msecs_to_jiffies jiffies cd))
            dispatched := []
            printk := []
            dispatch_ret := none }
    | _ => outcome.undefined

/-- The expiry of the timer held by the scheduler data at address `c`, as the kernel
performs it: the callback is called with the `data` field of that timer,
`function(data)`. -/
def timer_expiry (p : module_params) (msecs_to_jiffies : Int → Int) (jiffies : Int)
    (mem : memory) (c : Nat) (a : alloc_outcome) : outcome firing :=
  match mem c with
  | some (object.scheduler cd) =>
    cscan_dispatch_timer p msecs_to_jiffies jiffies mem cd.dispatch_timer.data a
  | _ => outcome.undefined

/-- The memory as `cscan_init_queue(q, e)` arranges it and as the scheduler's functions
keep it: the request queue lies at the non-NULL address `q`, its elevator data is the
scheduler data `cd` at address `c`, and the timer of `cd` carries the address `q`. -/
def attached (mem : memory) (q c : Nat) (cd : cscan_data) : Prop :=
  q ≠ 0 ∧ mem q = some (object.request_queue c) ∧ mem c = some (object.scheduler cd) ∧
    cd.dispatch_timer.data = q

/-- The memory that holds a request queue at `q`, its scheduler data `cd` at `c`, and
nothing else. -/
def attached_memory (q c : Nat) (cd : cscan_data) : memory :=
  fun x =>
    if x = q then some (object.request_queue c)
    else if x = c then some (object.scheduler cd)
    else none

/-! ## Runs and vocabulary of the properties -/

/-- Sectors in non-decreasing order: every request is at most every later one. -/
def nondecreasing (l : List request) : Prop :=
  List.Pairwise (fun a b => a.sector ≤ b.sector) l

instance (l : List request) : Decidable (nondecreasing l) := by
  unfold nondecreasing; exact inferInstance

/-- No allocation of a dispatch over `n` queued requests fails. -/
def alloc_outcome.all_ok (a : alloc_outcome) (n : Nat) : Prop :=
  a.block = true ∧ a.first_sentinel = true ∧ (∀ k, k < n → a.sector k = true) ∧
    a.last_sentinel = true

instance (a : alloc_outcome) (n : Nat) : Decidable (a.all_ok n) := by
  unfold alloc_outcome.all_ok; exact inferInstance

/-- The requests the drain loop hands on: those whose sector node was allocated. -/
def kept (alloc_sector : Nat → Bool) : Nat → List request → List request
  | _, [] => []
  | k, rq :: rest =>
    if alloc_sector k then rq :: kept alloc_sector (k + 1) rest
    else kept alloc_sector (k + 1) rest

/-- The sectors of the block that a dispatch builds from the sorted queue: the opening
sentinel, the sectors of the requests handed on, the closing sentinel, each sentinel
present when its allocation succeeded. -/
def block_of (a : alloc_outcome) (sorted : List request) : List Nat :=
  (if a.first_sentinel then [0] else []) ++ (kept a.sector 0 sorted).map request.sector ++
    (if a.last_sentinel then [max_sector] else [])

/-- Requests with the given sectors, numbered in queue order. -/
def queue_of (sectors : List Nat) : List request :=
  sectors.enum.map (fun c => { id := c.1, sector := c.2 })

/-- Scheduler data holding requests with the given sectors, counted, with an empty
processed list and a timer bound to request queue 1. -/
def cd_of (sectors : List Nat) : cscan_data :=
  { queue := queue_of sectors
    dispatch_timer := { data := 1, expires := none }
    request_count := sectors.length
    processed_list := [] }

/-- One call entry per sector: the request, numbered in call order, with every
allocation succeeding. -/
def calls_of (sectors : List Nat) : List (request × alloc_outcome) :=
  (queue_of sectors).map (fun rq => (rq, alloc_ok))

/-- The default parameters with the given `cscan_queue_size`. -/
def params_of_size (k : Int) : module_params :=
  { default_params with cscan_queue_size := k }

/-- The allocation results in which only the sector node of pass `k` fails. -/
def alloc_fail_sector (k : Nat) : alloc_outcome :=
  { alloc_ok with sector := fun i => i != k }

/-- Successive calls of `cscan_add_request`, one per entry (the request and the
allocation results of the dispatch that call may trigger): the data after the last
call and the results of the calls, in order. -/
def add_requests (p : module_params) :
    cscan_data → List (request × alloc_outcome) → Option (cscan_data × List call_result)
  | cd, [] => some (cd, [])
  | cd, c :: rest =>
    match cscan_add_request p cd c.1 c.2 with
    | none => none
    | some r =>
      match add_requests p r.cd rest with
      | none => none
      | some (cd', rs) => some (cd', r :: rs)

/-- The scheduler data reachable from a successful `cscan_init_queue` by calls of
`cscan_add_request` and `cscan_dispatch` that return and by expiries of its timer that
return, under any allocation results.  An expiry is taken in any typed memory that holds
the scheduler data at some address `c`; the state after it is what then lies at `c`. -/
inductive reachable (p : module_params) (msecs_to_jiffies : Int → Int) : cscan_data → Prop
  | init (jiffies : Int) (q : Nat) (alloc_eq alloc_cd : Bool) (cd : cscan_data) :
      cscan_init_queue p msecs_to_jiffies jiffies q alloc_eq alloc_cd = (0, some cd) →
      reachable p msecs_to_jiffies cd
  | add (cd : cscan_data) (rq : request) (a : alloc_outcome) (r : call_result) :
      reachable p msecs_to_jiffies cd → cscan_add_request p cd rq a = some r →
      reachable p msecs_to_jiffies r.cd
  | dispatch (cd : cscan_data) (force : Int) (a : alloc_outcome) (r : dispatch_result) :
      reachable p msecs_to_jiffies cd → cscan_dispatch p cd force a = some r →
      reachable p msecs_to_jiffies r.cd
  | timer (cd cd' : cscan_data) (mem : memory) (c : Nat) (jiffies : Int) (a : alloc_outcome)
      (r : firing) :
      reachable p msecs_to_jiffies cd → mem c = some (object.scheduler cd) →
      timer_expiry p msecs_to_jiffies jiffies mem c a = outcome.returns r →
      r.mem c = some (object.scheduler cd') →
      reachable p msecs_to_jiffies cd'

/-! ## cscan_exit_queue -/

/-- The calls `cscan_exit_queue` makes, one constructor per call site: the `printk` lines
of the summary (header, one per sector, closing line), the `kfree` of a sector node, the
`kfree` of a block, `del_timer_sync` on the dispatch timer, the `kfree` of the scheduler
data. -/
inductive exit_event where
  | printk_summary
  | printk_sector (sector : Nat)
  | printk_end
  | kfree_sector (sector : Nat)
  | kfree_block
  | del_timer_sync
  | kfree_cd
  deriving DecidableEq, Repr

/-- The function `cscan_exit_queue(e)` on the scheduler data of `e`: the calls it makes,
in order.  The summary is printed block by block; then every block is released, its
sector nodes first (`list_for_each_entry_safe` twice); then comes `del_timer_sync`, and
last the `kfree` of the scheduler data. -/
def cscan_exit_queue (cd : cscan_data) : List exit_event :=
  [exit_event.printk_summary]
    ++ (cd.processed_list.map (fun block => block.map exit_event.printk_sector)).flatten
    ++ [exit_event.printk_end]
    ++ (cd.processed_list.map
        (fun block => block.map exit_event.kfree_sector ++ [exit_event.kfree_block])).flatten
    ++ [exit_event.del_timer_sync, exit_event.kfree_cd]

/-- The calls that release memory the scheduler owns. -/
def exit_event.releases : exit_event → Bool
  | exit_event.kfree_sector _ => true
  | exit_event.kfree_block => true
  | exit_event.kfree_cd => true
  | _ => false

end Cscan

/-!
Message-queue character device (TP2/t2.c): embedding

The global `process_list` is a `List` of processes in list order, each with its
`msg_list` in list order (oldest message first).  Strings stand for the C strings;
the capacities of the buffers they are copied into are not part of the model, nor are
the `printk` lines.  Every `kmalloc` result is an input of the operation that performs
it.
-/

namespace Mqueue

/-! ## Data model -/

/-- The errno value behind `-EINVAL`. -/
def EINVAL : Int := 22

/-- The errno value behind `-ENOMEM`. -/
def ENOMEM : Int := 12

/-- A queued message, `struct message_s`: its text and its `size` field (a `short`). -/
structure message_s where
  message : String
  size : Int
  deriving DecidableEq, Repr

/-- A registered process, `struct process_s`.  `msg_count` is a C `int`, kept an
unbounded integer here. -/
structure process_s where
  pid : Int
  name : String
  msg_list : List message_s
  msg_count : Int
  deriving DecidableEq, Repr

/-- The module parameters `max_messages` and `max_msg_size`. -/
structure mq_params where
  max_messages : Int
  max_msg_size : Int
  deriving DecidableEq, Repr

/-- The defaults the source gives the two module parameters. -/
def mq_defaults : mq_params := { max_messages := 5, max_msg_size := 250 }

/-- The conversion of an `int` to `size_t` (64 bits) that the comparison
`strlen(data) > max_msg_size` applies to its right operand. -/
def to_size_t (x : Int) : Int := x % 18446744073709551616

/-- The conversion to `short` (16 bits) of the assignment `new_msg->size = strlen(data)`. -/
def to_short (x : Int) : Int := (x + 32768) % 65536 - 32768

/-! ## register_process, unregister_process -/

/-- The function `register_process(name, pid)`: the return value and the process list
afterwards.  `alloc_proc` and `alloc_name` are the results of its two `kmalloc` calls.
The new process is linked at the tail with an empty `msg_list` and `msg_count = 0`;
names already registered are not looked for. -/
def register_process (process_list : List process_s) (name : String) (pid : Int)
    (alloc_proc alloc_name : Bool) : Int × List process_s :=
  if alloc_proc then
    if alloc_name then
      (0, process_list ++ [{ pid := pid, name := name, msg_list := [], msg_count := 0 }])
    else (-ENOMEM, process_list)
  else (-ENOMEM, process_list)

/-- The function `unregister_process(name, pid)`: the first process with that name and
pid is unlinked together with its messages; `-EINVAL` when there is none. -/
def unregister_process : List process_s → String → Int → Int × List process_s
  | [], _, _ => (-EINVAL, [])
  | proc :: rest, name, pid =>
    if proc.name = name ∧ proc.pid = pid then (0, rest)
    else ((unregister_process rest name pid).1, proc :: (unregister_process rest name pid).2)

/-! ## list_add_message_to_process -/

/-- The function `list_add_message_to_process(proc, data)`: the return value and the
process afterwards.  `alloc_msg` and `alloc_content` are the results of its two `kmalloc`
calls.  First, when `msg_count >= max_messages`, the first message of `msg_list` is
unlinked and `msg_count` decremented; `list_first_entry` of an empty list designates no
message, and `none` stands for that call.  Then the length test, then the allocations,
then the message is linked at the tail and `msg_count` incremented. -/
def list_add_message_to_process (p : mq_params) (proc : process_s) (data : String)
    (alloc_msg alloc_content : Bool) : Option (Int × process_s) :=
  let evicted : Option process_s :=
    if proc.msg_count ≥ p.max_messages then
      match proc.msg_list with
      | [] => none
      | _ :: rest => some { proc with msg_list := rest, msg_count := proc.msg_count - 1 }
    else some proc
  match evicted with
  | none => none
  | some proc1 =>
    if (data.length : Int) > to_size_t p.max_msg_size then some (-EINVAL, proc1)
    else if alloc_msg then
      if alloc_content then
        some (0,
          { proc1 with
            msg_list := proc1.msg_list ++ [{ message := data, size := to_short data.length }]
            msg_count := proc1.msg_count + 1 })
      else some (-ENOMEM, proc1)
    else some (-ENOMEM, proc1)

/-! ## dev_write -/

/-- What the `sscanf` cascade of `dev_write` makes of the buffer, first match first:
`reg name` when `"/reg %s"` converts one field; `unreg name` when `"/unreg %s"` does;
`read name num` when `"/read %s %d"` converts at least one field, `num` being the second
field when it was converted; `send name message` when `"/%s"` converts one field,
`message` being the text after the first blank of the buffer (`strchr(buffer, ' ') + 1`)
and `none` when the buffer has no blank; `invalid` otherwise. -/
inductive command where
  | reg (name : String)
  | unreg (name : String)
  | read (name : String) (num : Option Int)
  | send (name : String) (message : Option String)
  | invalid
  deriving DecidableEq, Repr

/-- The loop of the read command that unlinks messages from the head of `msg_list`,
with its counter `i`: it stops at the first message for which `i >= num_messages`. -/
def read_loop (num_messages : Int) : Int → List message_s → List message_s
  | _, [] => []
  | i, msg :: rest =>
    if i ≥ num_messages then msg :: rest else read_loop num_messages (i + 1) rest

/-- The read command of `dev_write` over the process list: the first process named
`read_process` has its messages counted; with none, or fewer than `num_messages`, the
result is `-EINVAL`; otherwise messages are unlinked from the head and the result is
`len`.  `-EINVAL` when no process has that name.  (`msg_count` is not written.) -/
def dev_write_read (read_process : String) (num_messages : Int) (len : Int) :
    List process_s → Int × List process_s
  | [] => (-EINVAL, [])
  | proc :: rest =>
    if proc.name = read_process then
      if (proc.msg_list.length : Int) = 0 then (-EINVAL, proc :: rest)
      else if (proc.msg_list.length : Int) < num_messages then (-EINVAL, proc :: rest)
      else (len, { proc with msg_list := read_loop num_messages 0 proc.msg_list } :: rest)
    else
      ((dev_write_read read_process num_messages len rest).1,
        proc :: (dev_write_read read_process num_messages len rest).2)

/-- The send command of `dev_write` over the process list: the first process named
`target_process` receives the message through `list_add_message_to_process`, whose
return value is dropped, and the result is `len`; `-EINVAL` when no process has that
name.  `none` stands for the calls without a defined result: a buffer without a blank
(`strchr` returns NULL), or an eviction from an empty `msg_list`. -/
def dev_write_send (p : mq_params) (target_process : String) (message : Option String)
    (len : Int) (alloc_msg alloc_content : Bool) :
    List process_s → Option (Int × List process_s)
  | [] => some (-EINVAL, [])
  | proc :: rest =>
    if proc.name = target_process then
      match message with
      | none => none
      | some data =>
        match list_add_message_to_process p proc data alloc_msg alloc_content with
        | none => none
        | some r => some (len, r.2 :: rest)
    else
      match dev_write_send p target_process message len alloc_msg alloc_content rest with
      | none => none
      | some r => some (r.1, proc :: r.2)

/-- The function `dev_write` on the outcome `cmd` of its `sscanf` cascade: the return
value and the process list afterwards.  `current_pid` is `current->pid`, `len` the
length passed in, `alloc1` and `alloc2` the results of the two `kmalloc` calls of the
command, if it makes them.  The return values of `register_process`,
`unregister_process` and `list_add_message_to_process` are dropped. -/
def dev_write (p : mq_params) (process_list : List process_s) (current_pid : Int)
    (cmd : command) (len : Nat) (alloc1 alloc2 : Bool) : Option (Int × List process_s) :=
  match cmd with
  | command.reg name =>
    some (len, (register_process process_list name current_pid alloc1 alloc2).2)
  | command.unreg name => some (len, (unregister_process process_list name current_pid).2)
  | command.read name num => some (dev_write_read name (num.getD 1) len process_list)
  | command.send name message => dev_write_send p name message len alloc1 alloc2 process_list
  | command.invalid => some (-EINVAL, process_list)

/-! ## Runs -/

/-- The module parameters are C `int`s. -/
def mq_params.wf (p : mq_params) : Prop :=
  -2147483648 ≤ p.max_messages ∧ p.max_messages ≤ 2147483647 ∧
    -2147483648 ≤ p.max_msg_size ∧ p.max_msg_size ≤ 2147483647

instance (p : mq_params) : Decidable p.wf := by
  unfold mq_params.wf; exact inferInstance

/-- What every reachable mailbox satisfies: it holds no more messages than `msg_count`
says and no more than `max_messages`. -/
def mailbox_inv (p : mq_params) (proc : process_s) : Prop :=
  (proc.msg_list.length : Int) ≤ proc.msg_count ∧
    (proc.msg_list.length : Int) ≤ p.max_messages

/-- The process lists reachable from the empty list that `mqueue_init` sets up by calls
of `dev_write` that have a defined result, for any commands, callers and allocation
results. -/
inductive reachable (p : mq_params) : List process_s → Prop
  | init : reachable p []
  | write (process_list : List process_s) (current_pid : Int) (cmd : command) (len : Nat)
      (alloc1 alloc2 : Bool) (r : Int × List process_s) :
      reachable p process_list →
      dev_write p process_list current_pid cmd len alloc1 alloc2 = some r →
      reachable p r.2

end Mqueue

namespace Cscan

/-! ## Facts about the scan and the sort loop -/

/-- What one scan returns: the sector found is at most the start value and at most every
scanned sector; either nothing beat the start value, or the selected request is in the
queue, carries the returned sector, and that sector is below the start value. -/
theorem scan_min_spec (q : List request) (mr : Option request) (ms : Nat) :
    (scan_min q mr ms).2 ≤ ms ∧ (∀ x ∈ q, (scan_min q mr ms).2 ≤ x.sector) ∧
      (((scan_min q mr ms).1 = mr ∧ (scan_min q mr ms).2 = ms ∧ ∀ x ∈ q, ms ≤ x.sector) ∨
        ∃ m, (scan_min q mr ms).1 = some m ∧ m ∈ q ∧ m.sector = (scan_min q mr ms).2 ∧
          (scan_min q mr ms).2 < ms) := by
  induction q generalizing mr ms with
  | nil => simp [scan_min]
  | cons rq rest ih =>
    by_cases h : rq.sector < ms
    · have e : scan_min (rq :: rest) mr ms = scan_min rest (some rq) rq.sector := by
        simp [scan_min, h]
      rw [e]
      obtain ⟨h1, h2, h3⟩ := ih (some rq) rq.sector
      refine ⟨by omega, ?_, Or.inr ?_⟩
      · intro x hx
        rcases List.mem_cons.mp hx with rfl | hx
        · exact h1
        · exact h2 x hx
      · rcases h3 with ⟨ha, hb, _⟩ | ⟨m, ha, hb, hc, hd⟩
        · exact ⟨rq, ha, List.mem_cons_self _ _, hb.symm, by omega⟩
        · exact ⟨m, ha, List.mem_cons_of_mem _ hb, hc, by omega⟩
    · have e : scan_min (rq :: rest) mr ms = scan_min rest mr ms := by
        simp [scan_min, h]
      rw [e]
      obtain ⟨h1, h2, h3⟩ := ih mr ms
      refine ⟨h1, ?_, ?_⟩
      · intro x hx
        rcases List.mem_cons.mp hx with rfl | hx
        · omega
        · exact h2 x hx
      · rcases h3 with ⟨ha, hb, hc⟩ | ⟨m, ha, hb, hc, hd⟩
        · refine Or.inl ⟨ha, hb, ?_⟩
          intro x hx
          rcases List.mem_cons.mp hx with rfl | hx
          · omega
          · exact hc x hx
        · exact Or.inr ⟨m, ha, List.mem_cons_of_mem _ hb, hc, hd⟩

/-- A selected request is in the queue, lies below `ULONG_MAX`, and no queued sector is
smaller. -/
theorem scan_min_some {q : List request} {m : request}
    (h : (scan_min q none ULONG_MAX).1 = some m) :
    m ∈ q ∧ m.sector < ULONG_MAX ∧ ∀ x ∈ q, m.sector ≤ x.sector := by
  obtain ⟨_, h2, h3⟩ := scan_min_spec q none ULONG_MAX
  rcases h3 with ⟨ha, _, _⟩ | ⟨m', ha, hb, hc, hd⟩
  · rw [h] at ha; cases ha
  · rw [h] at ha
    cases ha
    exact ⟨hb, by omega, fun x hx => by have := h2 x hx; omega⟩

/-- The scan selects nothing exactly when no queued sector is below `ULONG_MAX`. -/
theorem scan_min_none {q : List request} :
    (scan_min q none ULONG_MAX).1 = none ↔ ∀ x ∈ q, ULONG_MAX ≤ x.sector := by
  constructor
  · intro h
    obtain ⟨_, _, h3⟩ := scan_min_spec q none ULONG_MAX
    rcases h3 with ⟨_, _, hc⟩ | ⟨m, ha, _⟩
    · exact hc
    · rw [h] at ha; cases ha
  · intro h
    cases hs : (scan_min q none ULONG_MAX).1 with
    | none => rfl
    | some m =>
      obtain ⟨hm, hlt, _⟩ := scan_min_some hs
      have := h m hm
      omega

/-- One unfolding of the sort loop on a non-empty queue when the scan selects `m`. -/
theorem sort_loop_some (fuel : Nat) (rq : request) (rest s : List request) (m : request)
    (h : (scan_min (rq :: rest) none ULONG_MAX).1 = some m) :
    sort_loop (fuel + 1) (rq :: rest) s = sort_loop fuel ((rq :: rest).erase m) (s ++ [m]) := by
  rw [sort_loop]
  split
  · rename_i m' hm'
    rw [h] at hm'
    cases hm'
    rfl
  · rename_i hn
    rw [h] at hn
    cases hn

/-- One unfolding of the sort loop on a non-empty queue when the scan selects nothing. -/
theorem sort_loop_none (fuel : Nat) (rq : request) (rest s : List request)
    (h : (scan_min (rq :: rest) none ULONG_MAX).1 = none) :
    sort_loop (fuel + 1) (rq :: rest) s = sort_loop fuel (rq :: rest) s := by
  rw [sort_loop]
  split
  · rename_i m' hm'
    rw [h] at hm'
    cases hm'
  · rfl

/-- A queue holding a sector that is not below `ULONG_MAX` keeps the loop running: no
amount of fuel lets it exit. -/
theorem sort_loop_stuck (fuel : Nat) (q s : List request)
    (h : ∃ x ∈ q, ULONG_MAX ≤ x.sector) : sort_loop fuel q s = none := by
  induction fuel generalizing q s with
  | zero =>
    obtain ⟨x, hx, _⟩ := h
    cases q with
    | nil => cases hx
    | cons rq rest => rfl
  | succ n ih =>
    obtain ⟨x, hx, hmax⟩ := h
    cases q with
    | nil => cases hx
    | cons rq rest =>
      cases hs : (scan_min (rq :: rest) none ULONG_MAX).1 with
      | none =>
        rw [sort_loop_none n rq rest s hs]
        exact ih _ _ ⟨x, hx, hmax⟩
      | some m =>
        rw [sort_loop_some n rq rest s m hs]
        obtain ⟨_, hlt, _⟩ := scan_min_some hs
        have hne : x ≠ m := by
          intro e
          rw [e] at hmax
          omega
        exact ih _ _ ⟨x, (List.mem_erase_of_ne hne).mpr hx, hmax⟩

/-- With every sector below `ULONG_MAX`, as many passes as there are requests let the
loop exit. -/
theorem sort_loop_terminates (fuel : Nat) (q s : List request)
    (h : ∀ x ∈ q, x.sector < ULONG_MAX) (hf : q.length ≤ fuel) :
    ∃ r, sort_loop fuel q s = some r := by
  induction fuel generalizing q s with
  | zero =>
    cases q with
    | nil => exact ⟨s, rfl⟩
    | cons rq rest => simp at hf
  | succ n ih =>
    cases q with
    | nil => exact ⟨s, by simp [sort_loop]⟩
    | cons rq rest =>
      cases hs : (scan_min (rq :: rest) none ULONG_MAX).1 with
      | none =>
        have := scan_min_none.mp hs rq (List.mem_cons_self _ _)
        have := h rq (List.mem_cons_self _ _)
        omega
      | some m =>
        rw [sort_loop_some n rq rest s m hs]
        obtain ⟨hm, _, _⟩ := scan_min_some hs
        apply ih
        · intro x hx
          exact h x (List.mem_of_mem_erase hx)
        · rw [List.length_erase_of_mem hm]
          simp at hf ⊢
          omega

/-- More fuel does not change a result already reached. -/
theorem sort_loop_mono (fuel k : Nat) (q s r : List request)
    (h : sort_loop fuel q s = some r) : sort_loop (fuel + k) q s = some r := by
  induction fuel generalizing q s with
  | zero =>
    cases q with
    | nil =>
      simp [sort_loop] at h ⊢
      exact h
    | cons rq rest => simp [sort_loop] at h
  | succ n ih =>
    cases q with
    | nil =>
      simp [sort_loop] at h ⊢
      exact h
    | cons rq rest =>
      have e : n + 1 + k = (n + k) + 1 := by omega
      rw [e]
      cases hs : (scan_min (rq :: rest) none ULONG_MAX).1 with
      | none =>
        rw [sort_loop_none _ rq rest s hs] at h ⊢
        exact ih _ _ h
      | some m =>
        rw [sort_loop_some _ rq rest s m hs] at h ⊢
        exact ih _ _ h

/-- The loop exits with `r` for some fuel exactly when `sort_queue` returns `r`: the
fuel chosen in `sort_queue` loses no run. -/
theorem sort_loop_fuel (fuel : Nat) (q r : List request) (h : sort_loop fuel q [] = some r) :
    sort_queue q = some r := by
  have hlt : ∀ x ∈ q, x.sector < ULONG_MAX := by
    intro x hx
    by_contra hc
    have := sort_loop_stuck fuel q [] ⟨x, hx, by omega⟩
    rw [this] at h
    cases h
  obtain ⟨r', hr'⟩ := sort_loop_terminates q.length q [] hlt (le_refl _)
  have h1 := sort_loop_mono fuel q.length q [] r h
  have h2 := sort_loop_mono q.length fuel q [] r' hr'
  rw [Nat.add_comm] at h2
  rw [h1] at h2
  cases h2
  exact hr'

/-- The result of the loop holds the requests of `sorted_queue` and of the queue, each
as often as before. -/
theorem sort_loop_perm (fuel : Nat) (q s r : List request) (h : sort_loop fuel q s = some r) :
    List.Perm r (s ++ q) := by
  induction fuel generalizing q s with
  | zero =>
    cases q with
    | nil =>
      simp [sort_loop] at h
      simp [h]
    | cons rq rest => simp [sort_loop] at h
  | succ n ih =>
    cases q with
    | nil =>
      simp [sort_loop] at h
      simp [h]
    | cons rq rest =>
      cases hs : (scan_min (rq :: rest) none ULONG_MAX).1 with
      | none =>
        rw [sort_loop_none _ rq rest s hs] at h
        exact ih _ _ h
      | some m =>
        rw [sort_loop_some _ rq rest s m hs] at h
        obtain ⟨hm, _, _⟩ := scan_min_some hs
        have h1 := ih _ _ h
        have h2 : List.Perm (rq :: rest) (m :: (rq :: rest).erase m) := List.perm_cons_erase hm
        refine h1.trans ?_
        rw [List.append_assoc]
        exact List.Perm.append_left s h2.symm

/-- The result of the loop is non-decreasing when `sorted_queue` is and no request of
`sorted_queue` lies above one still queued. -/
theorem sort_loop_sorted (fuel : Nat) (q s r : List request) (h : sort_loop fuel q s = some r)
    (hs1 : nondecreasing s) (hs2 : ∀ a ∈ s, ∀ b ∈ q, a.sector ≤ b.sector) :
    nondecreasing r := by
  induction fuel generalizing q s with
  | zero =>
    cases q with
    | nil =>
      simp [sort_loop] at h
      rw [← h]; exact hs1
    | cons rq rest => simp [sort_loop] at h
  | succ n ih =>
    cases q with
    | nil =>
      simp [sort_loop] at h
      rw [← h]; exact hs1
    | cons rq rest =>
      cases hs : (scan_min (rq :: rest) none ULONG_MAX).1 with
      | none =>
        rw [sort_loop_none _ rq rest s hs] at h
        exact ih _ _ h hs1 hs2
      | some m =>
        rw [sort_loop_some _ rq rest s m hs] at h
        obtain ⟨hm, _, hmin⟩ := scan_min_some hs
        apply ih _ _ h
        · unfold nondecreasing at hs1 ⊢
          rw [List.pairwise_append]
          refine ⟨hs1, List.pairwise_singleton _ _, ?_⟩
          intro a ha b hb
          rw [List.mem_singleton] at hb
          subst hb
          exact hs2 a ha b hm
        · intro a ha b hb
          have hb' := List.mem_of_mem_erase hb
          rcases List.mem_append.mp ha with ha | ha
          · exact hs2 a ha b hb'
          · rw [List.mem_singleton] at ha
            subst ha
            exact hmin b hb'

/-- The queue `sort_queue` returns is a permutation of the queue it was given. -/
theorem sort_queue_perm {q r : List request} (h : sort_queue q = some r) : List.Perm r q := by
  have := sort_loop_perm _ _ _ _ h
  simpa using this

/-- The queue `sort_queue` returns is non-decreasing by sector. -/
theorem sort_queue_sorted {q r : List request} (h : sort_queue q = some r) :
    nondecreasing r :=
  sort_loop_sorted _ _ _ _ h List.Pairwise.nil (fun a ha => by cases ha)

/-- The function `sort_queue` returns exactly on the queues whose sectors all lie below
`ULONG_MAX`. -/
theorem sort_queue_returns_iff (q : List request) :
    (∃ r, sort_queue q = some r) ↔ ∀ x ∈ q, x.sector < ULONG_MAX := by
  constructor
  · rintro ⟨r, hr⟩ x hx
    by_contra hc
    have := sort_loop_stuck q.length q [] ⟨x, hx, by omega⟩
    unfold sort_queue at hr
    rw [this] at hr
    cases hr
  · intro h
    exact sort_loop_terminates q.length q [] h (le_refl _)

end Cscan

namespace Cscan

/-! ## Facts about the drain loop and the dispatch -/

/-- The drain loop decrements `request_count` once per queued request, whatever the
allocations do. -/
theorem drain_loop_count (p : module_params) (al : Nat → Bool) (k : Nat) (q : List request)
    (s : sweep) : (drain_loop p al k q s).request_count = s.request_count - q.length := by
  induction q generalizing k s with
  | nil => simp [drain_loop]
  | cons rq rest ih =>
    rw [drain_loop]
    split
    · rw [ih]; simp; omega
    · rw [ih]; simp; omega

/-- The drain loop hands on exactly the requests whose sector node was allocated. -/
theorem drain_loop_dispatched (p : module_params) (al : Nat → Bool) (k : Nat)
    (q : List request) (s : sweep) :
    (drain_loop p al k q s).dispatched = s.dispatched ++ kept al k q := by
  induction q generalizing k s with
  | nil => simp [drain_loop, kept]
  | cons rq rest ih =>
    rw [drain_loop, kept]
    split
    · rw [ih]; simp
    · rw [ih]

/-- The drain loop records exactly the sectors of the requests it hands on. -/
theorem drain_loop_sectors (p : module_params) (al : Nat → Bool) (k : Nat)
    (q : List request) (s : sweep) :
    (drain_loop p al k q s).sectors = s.sectors ++ (kept al k q).map request.sector := by
  induction q generalizing k s with
  | nil => simp [drain_loop, kept]
  | cons rq rest ih =>
    rw [drain_loop, kept]
    split
    · rw [ih]; simp
    · rw [ih]

/-- When no sector allocation fails every request is handed on. -/
theorem kept_all (al : Nat → Bool) (k : Nat) (q : List request)
    (h : ∀ i, i < q.length → al (k + i) = true) : kept al k q = q := by
  induction q generalizing k with
  | nil => rfl
  | cons rq rest ih =>
    have h0 : al k = true := by simpa using h 0 (by simp)
    rw [kept, if_pos h0, ih]
    intro i hi
    have := h (i + 1) (by simp; omega)
    rw [← this]
    congr 1
    omega

/-- The requests handed on are a sublist of the queue drained. -/
theorem kept_sublist (al : Nat → Bool) (k : Nat) (q : List request) :
    List.Sublist (kept al k q) q := by
  induction q generalizing k with
  | nil => exact List.Sublist.slnil
  | cons rq rest ih =>
    rw [kept]
    split
    · exact List.Sublist.cons₂ _ (ih _)
    · exact List.Sublist.cons _ (ih _)

/-- On an empty queue `cscan_dispatch` returns 0 and changes nothing. -/
theorem cscan_dispatch_empty (p : module_params) (cd : cscan_data) (force : Int)
    (a : alloc_outcome) (h : cd.queue = []) :
    cscan_dispatch p cd force a =
      some { ret := 0, cd := cd, dispatched := [], printk := dbg p [printk_msg.dispatch_empty] } := by
  unfold cscan_dispatch
  rw [h]

/-- A dispatch whose `sort_queue` never returns never returns. -/
theorem cscan_dispatch_stuck (p : module_params) (cd : cscan_data) (force : Int)
    (a : alloc_outcome) (hne : cd.queue ≠ []) (hs : sort_queue cd.queue = none) :
    cscan_dispatch p cd force a = none := by
  unfold cscan_dispatch
  cases hq : cd.queue with
  | nil => exact absurd hq hne
  | cons rq rest =>
    rw [hq] at hs
    simp only [hs]

/-- A dispatch on a non-empty queue whose block allocation fails: `-ENOMEM`, nothing
handed on, the queue left sorted. -/
theorem cscan_dispatch_enomem (p : module_params) (cd : cscan_data) (force : Int)
    (a : alloc_outcome) (sorted : List request) (hne : cd.queue ≠ [])
    (hs : sort_queue cd.queue = some sorted) (hb : a.block = false) :
    ∃ res, cscan_dispatch p cd force a = some res ∧ res.ret = -ENOMEM ∧
      res.cd = { cd with queue := sorted } ∧ res.dispatched = [] := by
  unfold cscan_dispatch
  cases hq : cd.queue with
  | nil => exact absurd hq hne
  | cons rq rest =>
    rw [hq] at hs
    simp only [hs, hb]
    exact ⟨_, rfl, rfl, rfl, rfl⟩

/-- A dispatch on a non-empty queue whose block allocation succeeds: it returns 1,
empties the queue, decrements `request_count` by the queue length, hands on the requests
whose sector node was allocated, in sorted order, and appends one block. -/
theorem cscan_dispatch_sweep (p : module_params) (cd : cscan_data) (force : Int)
    (a : alloc_outcome) (sorted : List request) (hne : cd.queue ≠ [])
    (hs : sort_queue cd.queue = some sorted) (hb : a.block = true) :
    ∃ res, cscan_dispatch p cd force a = some res ∧ res.ret = 1 ∧ res.cd.queue = [] ∧
      res.cd.request_count = cd.request_count - sorted.length ∧
      res.cd.dispatch_timer = cd.dispatch_timer ∧
      res.cd.processed_list = cd.processed_list ++ [block_of a sorted] ∧
      res.dispatched = kept a.sector 0 sorted := by
  unfold cscan_dispatch
  cases hq : cd.queue with
  | nil => exact absurd hq hne
  | cons rq rest =>
    rw [hq] at hs
    simp only [hs, hb, if_true]
    refine ⟨_, rfl, rfl, rfl, ?_, rfl, ?_, ?_⟩
    · simp only [drain_loop_count]
    · simp only [drain_loop_sectors, block_of]
      cases a.first_sentinel <;> cases a.last_sentinel <;> simp
    · simp only [drain_loop_dispatched]
      simp

/-- A dispatch that returns on a non-empty queue had its `sort_queue` return. -/
theorem cscan_dispatch_returns (p : module_params) (cd : cscan_data) (force : Int)
    (a : alloc_outcome) (res : dispatch_result) (hne : cd.queue ≠ [])
    (h : cscan_dispatch p cd force a = some res) : ∃ sorted, sort_queue cd.queue = some sorted := by
  cases hs : sort_queue cd.queue with
  | some sorted => exact ⟨sorted, rfl⟩
  | none =>
    rw [cscan_dispatch_stuck p cd force a hne hs] at h
    cases h

end Cscan

namespace Cscan

/-- A dispatch on a non-empty queue in which no allocation fails, once `sort_queue` has
returned `sorted`: every field of the result. -/
theorem cscan_dispatch_all_ok (p : module_params) (cd : cscan_data) (force : Int)
    (a : alloc_outcome) (sorted : List request) (hne : cd.queue ≠ [])
    (hs : sort_queue cd.queue = some sorted) (hok : a.all_ok cd.queue.length) :
    ∃ res, cscan_dispatch p cd force a = some res ∧ res.ret = 1 ∧ res.cd.queue = [] ∧
      res.cd.request_count = cd.request_count - cd.queue.length ∧
      res.cd.dispatch_timer = cd.dispatch_timer ∧
      res.cd.processed_list =
        cd.processed_list ++ [0 :: (sorted.map request.sector ++ [max_sector])] ∧
      res.dispatched = sorted := by
  obtain ⟨hb, hf, hk, hl⟩ := hok
  have hlen : sorted.length = cd.queue.length := (sort_queue_perm hs).length_eq
  have hkept : kept a.sector 0 sorted = sorted := by
    apply kept_all
    intro i hi
    rw [Nat.zero_add]
    exact hk i (by omega)
  obtain ⟨res, h1, h2, h3, h4, h5, h6, h7⟩ := cscan_dispatch_sweep p cd force a sorted hne hs hb
  refine ⟨res, h1, h2, h3, ?_, h5, ?_, ?_⟩
  · rw [h4, hlen]
  · rw [h6, block_of, hkept, hf, hl]
    simp
  · rw [h7, hkept]

/-- The three ways a call of `cscan_dispatch` returns: on an empty queue; with
`-ENOMEM` after the sort, when the block allocation fails; with 1 after the sweep. -/
theorem cscan_dispatch_result (p : module_params) (cd : cscan_data) (force : Int)
    (a : alloc_outcome) (res : dispatch_result) (h : cscan_dispatch p cd force a = some res) :
    (cd.queue = [] ∧ res.ret = 0 ∧ res.cd = cd ∧ res.dispatched = []) ∨
      (∃ sorted, cd.queue ≠ [] ∧ sort_queue cd.queue = some sorted ∧ a.block = false ∧
        res.ret = -ENOMEM ∧ res.cd = { cd with queue := sorted } ∧ res.dispatched = []) ∨
      (∃ sorted, cd.queue ≠ [] ∧ sort_queue cd.queue = some sorted ∧ a.block = true ∧
        res.ret = 1 ∧ res.cd.queue = [] ∧
        res.cd.request_count = cd.request_count - sorted.length ∧
        res.cd.dispatch_timer = cd.dispatch_timer ∧
        res.cd.processed_list = cd.processed_list ++ [block_of a sorted] ∧
        res.dispatched = kept a.sector 0 sorted) := by
  by_cases hq : cd.queue = []
  · rw [cscan_dispatch_empty p cd force a hq] at h
    cases h
    exact Or.inl ⟨hq, rfl, rfl, rfl⟩
  · obtain ⟨sorted, hs⟩ := cscan_dispatch_returns p cd force a res hq h
    cases hb : a.block with
    | false =>
      obtain ⟨res', h1, h2, h3, h4⟩ := cscan_dispatch_enomem p cd force a sorted hq hs hb
      rw [h] at h1
      cases h1
      exact Or.inr (Or.inl ⟨sorted, hq, hs, rfl, h2, h3, h4⟩)
    | true =>
      obtain ⟨res', h1, h2, h3, h4, h5, h6, h7⟩ :=
        cscan_dispatch_sweep p cd force a sorted hq hs hb
      rw [h] at h1
      cases h1
      exact Or.inr (Or.inr ⟨sorted, hq, hs, rfl, h2, h3, h4, h5, h6, h7⟩)

/-- The two ways a call of `cscan_add_request` returns: below the threshold, with the
request queued and counted and no dispatch; at the threshold, with the result of the
dispatch run on the data holding the new request. -/
theorem cscan_add_request_result (p : module_params) (cd : cscan_data) (rq : request)
    (a : alloc_outcome) (r : call_result) (h : cscan_add_request p cd rq a = some r) :
    (cd.request_count + 1 < p.cscan_queue_size ∧
        r.cd = { cd with queue := cd.queue ++ [rq], request_count := cd.request_count + 1 } ∧
        r.dispatched = [] ∧ r.dispatch_ret = none) ∨
      (p.cscan_queue_size ≤ cd.request_count + 1 ∧
        ∃ res, cscan_dispatch p
            { cd with queue := cd.queue ++ [rq], request_count := cd.request_count + 1 } 1 a =
              some res ∧
          r.cd = res.cd ∧ r.dispatched = res.dispatched ∧ r.dispatch_ret = some res.ret) := by
  unfold cscan_add_request at h
  by_cases hc : p.cscan_queue_size ≤ cd.request_count + 1
  · simp only [ge_iff_le, hc, if_true] at h
    cases hd : cscan_dispatch p
        { cd with queue := cd.queue ++ [rq], request_count := cd.request_count + 1 } 1 a with
    | none =>
      rw [hd] at h
      cases h
    | some res =>
      rw [hd] at h
      cases h
      exact Or.inr ⟨hc, res, rfl, rfl, rfl, rfl⟩
  · simp only [ge_iff_le, hc, if_false] at h
    cases h
    exact Or.inl ⟨by omega, rfl, rfl, rfl⟩

/-- Calls of `cscan_add_request` over a list of entries split in two. -/
theorem add_requests_append (p : module_params) (cd cd1 : cscan_data)
    (l1 l2 : List (request × alloc_outcome)) (rs1 : List call_result)
    (h : add_requests p cd l1 = some (cd1, rs1)) :
    add_requests p cd (l1 ++ l2) =
      (add_requests p cd1 l2).map (fun x => (x.1, rs1 ++ x.2)) := by
  induction l1 generalizing cd rs1 with
  | nil =>
    simp [add_requests] at h
    obtain ⟨rfl, rfl⟩ := h
    simp
  | cons c rest ih =>
    rw [add_requests] at h
    rw [List.cons_append, add_requests]
    cases hr : cscan_add_request p cd c.1 c.2 with
    | none => rw [hr] at h; cases h
    | some r =>
      rw [hr] at h
      simp only at h ⊢
      cases hrest : add_requests p r.cd rest with
      | none => rw [hrest] at h; cases h
      | some x =>
        rw [hrest] at h
        obtain ⟨cd', rs'⟩ := x
        simp only [Option.some.injEq, Prod.mk.injEq] at h
        obtain ⟨rfl, rfl⟩ := h
        rw [ih r.cd rs' hrest]
        cases h2 : add_requests p cd' l2 <;> simp [h2]

/-- Calls of `cscan_add_request` that stay below the threshold: each returns without a
dispatch, and the requests end up queued in call order and counted. -/
theorem add_requests_below (p : module_params) (cd : cscan_data)
    (calls : List (request × alloc_outcome))
    (h : cd.request_count + calls.length < p.cscan_queue_size) :
    ∃ rs, add_requests p cd calls =
        some ({ cd with queue := cd.queue ++ calls.map Prod.fst,
                        request_count := cd.request_count + calls.length }, rs) ∧
      rs.length = calls.length ∧ ∀ r ∈ rs, r.dispatch_ret = none ∧ r.dispatched = [] := by
  induction calls generalizing cd with
  | nil => exact ⟨[], by simp [add_requests], rfl, by simp⟩
  | cons c rest ih =>
    have hc : ¬ (cd.request_count + 1 ≥ p.cscan_queue_size) := by
      simp at h; omega
    obtain ⟨r0, e, hcd, hret, hdis⟩ : ∃ r0, cscan_add_request p cd c.1 c.2 = some r0 ∧
        r0.cd = { cd with queue := cd.queue ++ [c.1], request_count := cd.request_count + 1 } ∧
        r0.dispatch_ret = none ∧ r0.dispatched = [] := by
      refine ⟨{ cd := { cd with queue := cd.queue ++ [c.1],
                                request_count := cd.request_count + 1 }
                dispatched := []
                printk := dbg p [printk_msg.add_sector c.1.sector]
                dispatch_ret := none }, ?_, rfl, rfl, rfl⟩
      unfold cscan_add_request
      simp only [hc, if_false]
    obtain ⟨rs, h1, h2, h3⟩ := ih r0.cd (by rw [hcd]; simp at h ⊢; omega)
    refine ⟨r0 :: rs, ?_, by simp [h2], ?_⟩
    · rw [add_requests, e]
      simp only
      rw [h1, hcd]
      simp only [List.map_cons, List.append_assoc, List.singleton_append, List.length_cons,
        Nat.cast_add, Nat.cast_one, Option.some.injEq, Prod.mk.injEq, and_true]
      congr 1
      omega
    · intro r hr
      rcases List.mem_cons.mp hr with rfl | hr
      · exact ⟨hret, hdis⟩
      · exact h3 r hr

/-- A single call, as a run of one entry. -/
theorem add_requests_single (p : module_params) (cd : cscan_data)
    (c : request × alloc_outcome) :
    add_requests p cd [c] = (cscan_add_request p cd c.1 c.2).map (fun r => (r.cd, [r])) := by
  rw [add_requests]
  cases cscan_add_request p cd c.1 c.2 with
  | none => rfl
  | some r => simp [add_requests]

/-- A call of `cscan_add_request` that reaches the threshold returns when its dispatch
does. -/
theorem cscan_add_request_at_threshold (p : module_params) (cd : cscan_data) (rq : request)
    (a : alloc_outcome) (res : dispatch_result)
    (hc : p.cscan_queue_size ≤ cd.request_count + 1)
    (hres : cscan_dispatch p
      { cd with queue := cd.queue ++ [rq], request_count := cd.request_count + 1 } 1 a =
        some res) :
    ∃ r, cscan_add_request p cd rq a = some r := by
  unfold cscan_add_request
  simp only [ge_iff_le, hc, if_true, hres]
  exact ⟨_, rfl⟩

/-- The data a successful `cscan_init_queue` installs: empty queue, count 0, empty
processed list. -/
theorem cscan_init_queue_ok (p : module_params) (m2j : Int → Int) (jiffies : Int) (q : Nat)
    (alloc_eq alloc_cd : Bool) (cd : cscan_data)
    (h : cscan_init_queue p m2j jiffies q alloc_eq alloc_cd = (0, some cd)) :
    cd.queue = [] ∧ cd.request_count = 0 ∧ cd.processed_list = [] := by
  unfold cscan_init_queue at h
  cases alloc_eq <;> cases alloc_cd <;> simp at h
  obtain rfl := h
  exact ⟨rfl, rfl, rfl⟩

/-- A dispatch returns, whatever the allocations do, when every queued sector is below
`ULONG_MAX`. -/
theorem cscan_dispatch_returns_of_lt (p : module_params) (cd : cscan_data) (force : Int)
    (a : alloc_outcome) (hlt : ∀ x ∈ cd.queue, x.sector < ULONG_MAX) :
    ∃ res, cscan_dispatch p cd force a = some res := by
  by_cases hq : cd.queue = []
  · exact ⟨_, cscan_dispatch_empty p cd force a hq⟩
  · obtain ⟨sorted, hs⟩ := (sort_queue_returns_iff cd.queue).mpr hlt
    cases hb : a.block with
    | true =>
      obtain ⟨res, h1, _⟩ := cscan_dispatch_sweep p cd force a sorted hq hs hb
      exact ⟨res, h1⟩
    | false =>
      obtain ⟨res, h1, _⟩ := cscan_dispatch_enomem p cd force a sorted hq hs hb
      exact ⟨res, h1⟩

/-- The sort loop needs one pass per queued request: it does not exit on less fuel than
the queue is long. -/
theorem sort_loop_passes (fuel : Nat) (q s r : List request)
    (h : sort_loop fuel q s = some r) : q.length ≤ fuel := by
  induction fuel generalizing q s with
  | zero =>
    cases q with
    | nil => simp
    | cons rq rest => simp [sort_loop] at h
  | succ n ih =>
    cases q with
    | nil => simp
    | cons rq rest =>
      cases hs : (scan_min (rq :: rest) none ULONG_MAX).1 with
      | none =>
        rw [sort_loop_none _ rq rest s hs] at h
        have := ih _ _ h
        omega
      | some m =>
        rw [sort_loop_some _ rq rest s m hs] at h
        obtain ⟨hm, _, _⟩ := scan_min_some hs
        have := ih _ _ h
        rw [List.length_erase_of_mem hm] at this
        simp at this ⊢
        omega

/-- The order of the calls of `cscan_exit_queue`: the summary, then the releases of the
blocks, then `del_timer_sync`, then the release of the scheduler data; with a non-empty
processed list a block is released before the timer is stopped. -/
theorem cscan_exit_queue_order (cd : cscan_data) (h : cd.processed_list ≠ []) :
    ∃ l1, cscan_exit_queue cd = l1 ++ [exit_event.del_timer_sync, exit_event.kfree_cd] ∧
      exit_event.kfree_block ∈ l1 := by
  refine ⟨_, rfl, ?_⟩
  cases hl : cd.processed_list with
  | nil => exact absurd hl h
  | cons b rest => simp

/-- What a dispatch yields apart from the lines it prints does not depend on the module
parameters: two parameter sets give the same return value, data and requests handed on,
or no return for either. -/
theorem cscan_dispatch_params (p p' : module_params) (cd : cscan_data) (force : Int)
    (a : alloc_outcome) :
    (cscan_dispatch p cd force a).map (fun r => (r.ret, r.cd, r.dispatched)) =
      (cscan_dispatch p' cd force a).map (fun r => (r.ret, r.cd, r.dispatched)) := by
  by_cases hq : cd.queue = []
  · rw [cscan_dispatch_empty p cd force a hq, cscan_dispatch_empty p' cd force a hq]
    rfl
  · cases hs : sort_queue cd.queue with
    | none =>
      rw [cscan_dispatch_stuck p cd force a hq hs, cscan_dispatch_stuck p' cd force a hq hs]
    | some sorted =>
      cases hb : a.block with
      | false =>
        obtain ⟨res, h1, h2, h3, h4⟩ := cscan_dispatch_enomem p cd force a sorted hq hs hb
        obtain ⟨res', h1', h2', h3', h4'⟩ := cscan_dispatch_enomem p' cd force a sorted hq hs hb
        rw [h1, h1']
        simp only [Option.map_some', h2, h2', h3, h3', h4, h4']
      | true =>
        obtain ⟨res, h1, h2, h3, h4, h5, h6, h7⟩ :=
          cscan_dispatch_sweep p cd force a sorted hq hs hb
        obtain ⟨res', h1', h2', h3', h4', h5', h6', h7'⟩ :=
          cscan_dispatch_sweep p' cd force a sorted hq hs hb
        rw [h1, h1']
        obtain ⟨ret, ⟨q, t, c, l⟩, d, pk⟩ := res
        obtain ⟨ret', ⟨q', t', c', l'⟩, d', pk'⟩ := res'
        simp only at h2 h3 h4 h5 h6 h7 h2' h3' h4' h5' h6' h7'
        simp only [Option.map_some', h2, h2', h3, h3', h4, h4', h5, h5', h6, h6', h7, h7']

/-- What a call of `cscan_add_request` yields apart from the lines it prints depends on
the module parameters through `cscan_queue_size` only. -/
theorem cscan_add_request_params (p p' : module_params) (cd : cscan_data) (rq : request)
    (a : alloc_outcome) (hsize : p.cscan_queue_size = p'.cscan_queue_size) :
    (cscan_add_request p cd rq a).map (fun r => (r.cd, r.dispatched, r.dispatch_ret)) =
      (cscan_add_request p' cd rq a).map (fun r => (r.cd, r.dispatched, r.dispatch_ret)) := by
  have hd := cscan_dispatch_params p p'
    { cd with queue := cd.queue ++ [rq], request_count := cd.request_count + 1 } 1 a
  unfold cscan_add_request
  simp only [← hsize]
  by_cases hc : cd.request_count + 1 ≥ p.cscan_queue_size
  · simp only [hc, if_true]
    cases h1 : cscan_dispatch p
        { cd with queue := cd.queue ++ [rq], request_count := cd.request_count + 1 } 1 a with
    | none =>
      rw [h1] at hd
      cases h2 : cscan_dispatch p'
          { cd with queue := cd.queue ++ [rq], request_count := cd.request_count + 1 } 1 a with
      | none => rfl
      | some r2 => rw [h2] at hd; simp at hd
    | some r1 =>
      rw [h1] at hd
      cases h2 : cscan_dispatch p'
          { cd with queue := cd.queue ++ [rq], request_count := cd.request_count + 1 } 1 a with
      | none => rw [h2] at hd; simp at hd
      | some r2 =>
        rw [h2] at hd
        simp only [Option.map_some', Option.some.injEq, Prod.mk.injEq] at hd ⊢
        obtain ⟨e1, e2, e3⟩ := hd
        exact ⟨e2, e3, by rw [e1]⟩
  · simp only [hc, if_false]
    rfl

/-- Where the scan finds its request: either nothing beat the start value, or the queue
splits around the selected request, with every request before it on a strictly larger
sector and every request after it on a sector at least as large. -/
theorem scan_min_split (q : List request) (mr : Option request) (ms : Nat) :
    ((scan_min q mr ms).1 = mr ∧ ∀ x ∈ q, ms ≤ x.sector) ∨
      ∃ m l1 l2, (scan_min q mr ms).1 = some m ∧ q = l1 ++ m :: l2 ∧ m.sector < ms ∧
        (∀ x ∈ l1, m.sector < x.sector) ∧ ∀ x ∈ l2, m.sector ≤ x.sector := by
  induction q generalizing mr ms with
  | nil => exact Or.inl ⟨rfl, by simp⟩
  | cons rq rest ih =>
    by_cases h : rq.sector < ms
    · have e : scan_min (rq :: rest) mr ms = scan_min rest (some rq) rq.sector := by
        simp [scan_min, h]
      rw [e]
      rcases ih (some rq) rq.sector with ⟨h1, h2⟩ | ⟨m, l1, l2, h1, h2, h3, h4, h5⟩
      · exact Or.inr ⟨rq, [], rest, h1, rfl, h, by simp, h2⟩
      · refine Or.inr ⟨m, rq :: l1, l2, h1, by rw [h2]; rfl, by omega, ?_, h5⟩
        intro x hx
        rcases List.mem_cons.mp hx with rfl | hx
        · exact h3
        · exact h4 x hx
    · have e : scan_min (rq :: rest) mr ms = scan_min rest mr ms := by
        simp [scan_min, h]
      rw [e]
      rcases ih mr ms with ⟨h1, h2⟩ | ⟨m, l1, l2, h1, h2, h3, h4, h5⟩
      · refine Or.inl ⟨h1, ?_⟩
        intro x hx
        rcases List.mem_cons.mp hx with rfl | hx
        · omega
        · exact h2 x hx
      · refine Or.inr ⟨m, rq :: l1, l2, h1, by rw [h2]; rfl, h3, ?_, h5⟩
        intro x hx
        rcases List.mem_cons.mp hx with rfl | hx
        · omega
        · exact h4 x hx

/-- The request a pass selects is the first in queue order among those with the least
sector, and unlinking it leaves the others in place. -/
theorem scan_min_first {q : List request} {m : request}
    (h : (scan_min q none ULONG_MAX).1 = some m) :
    ∃ l1 l2, q = l1 ++ m :: l2 ∧ q.erase m = l1 ++ l2 ∧ (∀ x ∈ l1, m.sector < x.sector) ∧
      ∀ x ∈ l2, m.sector ≤ x.sector := by
  rcases scan_min_split q none ULONG_MAX with ⟨h1, _⟩ | ⟨m', l1, l2, h1, h2, _, h4, h5⟩
  · rw [h] at h1; cases h1
  · rw [h] at h1
    cases h1
    refine ⟨l1, l2, h2, ?_, h4, h5⟩
    have hnot : m ∉ l1 := fun hm => by have := h4 m hm; omega
    rw [h2, List.erase_append_right _ hnot, List.erase_cons_head]

/-- The sort loop keeps, for every sector value, the requests of that sector in the
order they had: first those already in `sorted_queue`, then those still queued. -/
theorem sort_loop_stable (fuel : Nat) (q s r : List request) (h : sort_loop fuel q s = some r)
    (k : Nat) :
    r.filter (fun x => decide (x.sector = k)) =
      s.filter (fun x => decide (x.sector = k)) ++ q.filter (fun x => decide (x.sector = k)) := by
  induction fuel generalizing q s with
  | zero =>
    cases q with
    | nil =>
      simp [sort_loop] at h
      simp [h]
    | cons rq rest => simp [sort_loop] at h
  | succ n ih =>
    cases q with
    | nil =>
      simp [sort_loop] at h
      simp [h]
    | cons rq rest =>
      cases hs : (scan_min (rq :: rest) none ULONG_MAX).1 with
      | none =>
        rw [sort_loop_none _ rq rest s hs] at h
        exact ih _ _ h
      | some m =>
        rw [sort_loop_some _ rq rest s m hs] at h
        obtain ⟨l1, l2, h1, h2, h3, _⟩ := scan_min_first hs
        rw [ih _ _ h, h2, h1]
        simp only [List.filter_append, List.filter_cons, List.filter_nil, List.append_assoc]
        by_cases hk : m.sector = k
        · have hnil : l1.filter (fun x => decide (x.sector = k)) = [] := by
            rw [List.filter_eq_nil_iff]
            intro x hx
            have := h3 x hx
            simp
            omega
          simp [hk, hnil]
        · simp [hk]

/-- On a queue that is already non-decreasing the sort loop moves the requests over in
queue order. -/
theorem sort_loop_of_sorted (fuel : Nat) (q s r : List request)
    (h : sort_loop fuel q s = some r) (hq : nondecreasing q) : r = s ++ q := by
  induction fuel generalizing q s with
  | zero =>
    cases q with
    | nil =>
      simp [sort_loop] at h
      simp [h]
    | cons rq rest => simp [sort_loop] at h
  | succ n ih =>
    cases q with
    | nil =>
      simp [sort_loop] at h
      simp [h]
    | cons rq rest =>
      cases hs : (scan_min (rq :: rest) none ULONG_MAX).1 with
      | none =>
        rw [sort_loop_none _ rq rest s hs] at h
        exact ih _ _ h hq
      | some m =>
        rw [sort_loop_some _ rq rest s m hs] at h
        obtain ⟨l1, l2, h1, h2, h3, _⟩ := scan_min_first hs
        unfold nondecreasing at hq
        cases l1 with
        | nil =>
          simp only [List.nil_append, List.cons.injEq] at h1
          obtain ⟨rfl, rfl⟩ := h1
          rw [List.erase_cons_head] at h
          have := ih _ _ h (List.Pairwise.of_cons hq)
          rw [this]
          simp
        | cons x l1' =>
          simp only [List.cons_append, List.cons.injEq] at h1
          obtain ⟨rfl, hrest⟩ := h1
          have hle : rq.sector ≤ m.sector :=
            List.rel_of_pairwise_cons hq (by rw [hrest]; simp)
          have := h3 rq (List.mem_cons_self _ _)
          omega

/-- An expiry of the timer in the memory `cscan_init_queue` arranges has no defined
result: the callback receives the address of the request queue, casts it to
`struct cscan_data *` and reads `cd->dispatch_timer.data` through it. -/
theorem timer_expiry_attached (p : module_params) (m2j : Int → Int) (jiffies : Int)
    (mem : memory) (q c : Nat) (cd : cscan_data) (a : alloc_outcome)
    (h : attached mem q c cd) : timer_expiry p m2j jiffies mem c a = outcome.undefined := by
  obtain ⟨hq, hmq, hmc, hd⟩ := h
  unfold timer_expiry
  rw [hmc]
  simp only
  unfold cscan_dispatch_timer
  rw [hd, if_neg hq, hmq]

/-- The memory `attached_memory q c cd` is the one `cscan_init_queue` arranges, when the
two addresses differ, `q` is not NULL and the timer of `cd` carries `q`. -/
theorem attached_memory_attached (q c : Nat) (cd : cscan_data) (hq : q ≠ 0) (hqc : c ≠ q)
    (hd : cd.dispatch_timer.data = q) : attached (attached_memory q c cd) q c cd := by
  refine ⟨hq, ?_, ?_, hd⟩
  · simp [attached_memory]
  · simp [attached_memory, hqc]

/-- C1: for every scheduler state with a non-empty queue and every run of
`cscan_dispatch` in which no allocation fails, the requests handed to
`elv_dispatch_sort`, in call order, are a permutation of the queued requests and are
non-decreasing by sector whenever the call returns; and the call does return when every
queued sector is below `ULONG_MAX`. -/
theorem C1_dispatch_forwards_sorted_permutation (p : module_params) (cd : cscan_data)
    (force : Int) (a : alloc_outcome) (hne : cd.queue ≠ [])
    (hok : a.all_ok cd.queue.length) :
    (∀ res, cscan_dispatch p cd force a = some res →
        List.Perm res.dispatched cd.queue ∧ nondecreasing res.dispatched) ∧
      ((∀ x ∈ cd.queue, x.sector < ULONG_MAX) →
        ∃ res, cscan_dispatch p cd force a = some res) := by
  constructor
  · intro res hres
    obtain ⟨sorted, hs⟩ := cscan_dispatch_returns p cd force a res hne hres
    obtain ⟨res', h1, _, _, _, _, _, h7⟩ := cscan_dispatch_all_ok p cd force a sorted hne hs hok
    rw [hres] at h1
    cases h1
    rw [h7]
    exact ⟨sort_queue_perm hs, sort_queue_sorted hs⟩
  · intro hlt
    obtain ⟨sorted, hs⟩ := (sort_queue_returns_iff cd.queue).mpr hlt
    obtain ⟨res, h1, _⟩ := cscan_dispatch_all_ok p cd force a sorted hne hs hok
    exact ⟨res, h1⟩

/-- C1 at the queue [50, 10, 30] with every allocation succeeding: the call returns and
hands on the three requests in the order 10, 30, 50. -/
theorem C1_dispatch_forwards_sorted_permutation_witness :
    ((cd_of [50, 10, 30]).queue ≠ [] ∧ alloc_ok.all_ok (cd_of [50, 10, 30]).queue.length) ∧
      (∀ x ∈ (cd_of [50, 10, 30]).queue, x.sector < ULONG_MAX) ∧
      (∀ res, cscan_dispatch default_params (cd_of [50, 10, 30]) 1 alloc_ok = some res →
        List.Perm res.dispatched (cd_of [50, 10, 30]).queue ∧ nondecreasing res.dispatched) ∧
      ∃ res, cscan_dispatch default_params (cd_of [50, 10, 30]) 1 alloc_ok = some res :=
  ⟨⟨by decide, by decide⟩, by decide,
    (C1_dispatch_forwards_sorted_permutation default_params (cd_of [50, 10, 30]) 1 alloc_ok
      (by decide) (by decide)).1,
    (C1_dispatch_forwards_sorted_permutation default_params (cd_of [50, 10, 30]) 1 alloc_ok
      (by decide) (by decide)).2 (by decide)⟩

/-- C2: for every queue, the queue that `sort_queue` leaves is non-decreasing by sector
(each request is at most every later one, in particular the one that follows it); and
`sort_queue` does return when every queued sector is below `ULONG_MAX`. -/
theorem C2_sort_queue_nondecreasing (q : List request) :
    (∀ r, sort_queue q = some r →
        nondecreasing r ∧ List.Chain' (fun x y => x.sector ≤ y.sector) r) ∧
      ((∀ x ∈ q, x.sector < ULONG_MAX) → ∃ r, sort_queue q = some r) := by
  constructor
  · intro r hr
    have h := sort_queue_sorted hr
    exact ⟨h, List.Pairwise.chain' h⟩
  · intro hlt
    exact (sort_queue_returns_iff q).mpr hlt

/-- C2 at the queue [50, 10, 30]: `sort_queue` returns 10, 30, 50, which is ordered. -/
theorem C2_sort_queue_nondecreasing_witness :
    (∀ x ∈ queue_of [50, 10, 30], x.sector < ULONG_MAX) ∧
      sort_queue (queue_of [50, 10, 30]) = some [⟨1, 10⟩, ⟨2, 30⟩, ⟨0, 50⟩] ∧
      nondecreasing [⟨1, 10⟩, ⟨2, 30⟩, ⟨0, 50⟩] ∧
      ∃ r, sort_queue (queue_of [50, 10, 30]) = some r :=
  ⟨by decide, by decide,
    ((C2_sort_queue_nondecreasing (queue_of [50, 10, 30])).1 _
      (by decide : sort_queue (queue_of [50, 10, 30]) = some [⟨1, 10⟩, ⟨2, 30⟩, ⟨0, 50⟩])).1,
    (C2_sort_queue_nondecreasing (queue_of [50, 10, 30])).2 (by decide)⟩

/-- C3: for every queue, the queue that `sort_queue` leaves is a permutation of the
queue it was given: the same requests with the same multiplicities, so none is lost and
none duplicated, equal sectors included; and `sort_queue` does return when every queued
sector is below `ULONG_MAX`. -/
theorem C3_sort_queue_permutation (q : List request) :
    (∀ r, sort_queue q = some r →
        List.Perm r q ∧ r.length = q.length ∧ ∀ x, r.count x = q.count x) ∧
      ((∀ x ∈ q, x.sector < ULONG_MAX) → ∃ r, sort_queue q = some r) := by
  constructor
  · intro r hr
    have h := sort_queue_perm hr
    exact ⟨h, h.length_eq, fun x => h.count_eq x⟩
  · intro hlt
    exact (sort_queue_returns_iff q).mpr hlt

/-- C3 at the queue [20, 20]: `sort_queue` returns both requests. -/
theorem C3_sort_queue_permutation_witness :
    (∀ x ∈ queue_of [20, 20], x.sector < ULONG_MAX) ∧
      sort_queue (queue_of [20, 20]) = some [⟨0, 20⟩, ⟨1, 20⟩] ∧
      List.Perm [⟨0, 20⟩, ⟨1, 20⟩] (queue_of [20, 20]) ∧
      ∃ r, sort_queue (queue_of [20, 20]) = some r :=
  ⟨by decide, by decide,
    ((C3_sort_queue_permutation (queue_of [20, 20])).1 _
      (by decide : sort_queue (queue_of [20, 20]) = some [⟨0, 20⟩, ⟨1, 20⟩])).1,
    (C3_sort_queue_permutation (queue_of [20, 20])).2 (by decide)⟩

/-- C4: for every scheduler state whose queue is empty, and whatever `force` and the
allocation results are, `cscan_dispatch` returns 0, hands no request to
`elv_dispatch_sort` and leaves the scheduler data (queue, `request_count`, processed
list, timer) as it was. -/
theorem C4_dispatch_empty_queue (p : module_params) (cd : cscan_data) (force : Int)
    (a : alloc_outcome) (h : cd.queue = []) :
    ∃ res, cscan_dispatch p cd force a = some res ∧ res.ret = 0 ∧ res.dispatched = [] ∧
      res.cd = cd ∧ res.cd.processed_list = cd.processed_list :=
  ⟨_, cscan_dispatch_empty p cd force a h, rfl, rfl, rfl, rfl⟩

/-- C4 at the empty scheduler state with an empty processed list. -/
theorem C4_dispatch_empty_queue_witness :
    (cd_of []).queue = [] ∧
      ∃ res, cscan_dispatch default_params (cd_of []) 0 alloc_ok = some res ∧ res.ret = 0 ∧
        res.dispatched = [] ∧ res.cd = cd_of [] ∧
        res.cd.processed_list = (cd_of []).processed_list :=
  ⟨by decide, C4_dispatch_empty_queue default_params (cd_of []) 0 alloc_ok (by decide)⟩

/-- C5, as stated, fails: with two queued requests and every allocation succeeding,
`cscan_dispatch` hands on both requests and returns 1, not 2. -/
theorem C5_dispatch_return_counterexample :
    ∃ res, cscan_dispatch default_params (cd_of [10, 20]) 1 alloc_ok = some res ∧
      res.dispatched.length = 2 ∧ (cd_of [10, 20]).queue.length = 2 ∧ res.ret = 1 ∧
      res.ret ≠ 2 :=
  ⟨_, rfl, by decide, by decide, by decide, by decide⟩

/-- C5, amended: for every scheduler state with N ≥ 1 queued requests, a call of
`cscan_dispatch` whose block allocation succeeds returns 1 whenever it returns, whatever
N is; with no allocation failing it has then handed on all N requests.  The call does
return when every queued sector is below `ULONG_MAX`. -/
theorem C5_dispatch_returns_one (p : module_params) (cd : cscan_data) (force : Int)
    (a : alloc_outcome) (hne : cd.queue ≠ []) (hb : a.block = true) :
    (∀ res, cscan_dispatch p cd force a = some res →
        res.ret = 1 ∧ (a.all_ok cd.queue.length → res.dispatched.length = cd.queue.length)) ∧
      ((∀ x ∈ cd.queue, x.sector < ULONG_MAX) →
        ∃ res, cscan_dispatch p cd force a = some res) := by
  constructor
  · intro res hres
    obtain ⟨sorted, hs⟩ := cscan_dispatch_returns p cd force a res hne hres
    obtain ⟨res', h1, h2, _⟩ := cscan_dispatch_sweep p cd force a sorted hne hs hb
    rw [hres] at h1
    cases h1
    refine ⟨h2, ?_⟩
    intro hok
    obtain ⟨res', h1, _, _, _, _, _, h7⟩ := cscan_dispatch_all_ok p cd force a sorted hne hs hok
    rw [hres] at h1
    cases h1
    rw [h7]
    exact (sort_queue_perm hs).length_eq
  · intro hlt
    obtain ⟨sorted, hs⟩ := (sort_queue_returns_iff cd.queue).mpr hlt
    obtain ⟨res, h1, _⟩ := cscan_dispatch_sweep p cd force a sorted hne hs hb
    exact ⟨res, h1⟩

/-- C5, amended, at the queue [50, 10, 30] with every allocation succeeding. -/
theorem C5_dispatch_returns_one_witness :
    ((cd_of [50, 10, 30]).queue ≠ [] ∧ alloc_ok.block = true) ∧
      (∀ x ∈ (cd_of [50, 10, 30]).queue, x.sector < ULONG_MAX) ∧
      (∀ res, cscan_dispatch default_params (cd_of [50, 10, 30]) 1 alloc_ok = some res →
        res.ret = 1 ∧
          (alloc_ok.all_ok (cd_of [50, 10, 30]).queue.length →
            res.dispatched.length = (cd_of [50, 10, 30]).queue.length)) ∧
      ∃ res, cscan_dispatch default_params (cd_of [50, 10, 30]) 1 alloc_ok = some res :=
  ⟨⟨by decide, by decide⟩, by decide,
    (C5_dispatch_returns_one default_params (cd_of [50, 10, 30]) 1 alloc_ok
      (by decide) (by decide)).1,
    (C5_dispatch_returns_one default_params (cd_of [50, 10, 30]) 1 alloc_ok
      (by decide) (by decide)).2 (by decide)⟩

/-- C6: for every dispatch on a non-empty queue in which no allocation fails, the
processed list after the call is the old one followed by one block, and that block is
0, then the sectors of all queued requests in non-decreasing order, then 2097152; it has
N + 2 entries.  The call does return when every queued sector is below `ULONG_MAX`. -/
theorem C6_sweep_record (p : module_params) (cd : cscan_data) (force : Int)
    (a : alloc_outcome) (hne : cd.queue ≠ []) (hok : a.all_ok cd.queue.length) :
    (∀ res, cscan_dispatch p cd force a = some res →
        ∃ mid, res.cd.processed_list = cd.processed_list ++ [0 :: (mid ++ [2097152])] ∧
          List.Perm mid (cd.queue.map request.sector) ∧ List.Sorted (· ≤ ·) mid ∧
          (0 :: (mid ++ [2097152])).length = cd.queue.length + 2) ∧
      ((∀ x ∈ cd.queue, x.sector < ULONG_MAX) →
        ∃ res, cscan_dispatch p cd force a = some res) := by
  constructor
  · intro res hres
    obtain ⟨sorted, hs⟩ := cscan_dispatch_returns p cd force a res hne hres
    obtain ⟨res', h1, _, _, _, _, h6, _⟩ := cscan_dispatch_all_ok p cd force a sorted hne hs hok
    rw [hres] at h1
    cases h1
    refine ⟨sorted.map request.sector, h6, (sort_queue_perm hs).map _, ?_, ?_⟩
    · have := sort_queue_sorted hs
      unfold nondecreasing at this
      exact List.pairwise_map.mpr this
    · simp [(sort_queue_perm hs).length_eq]
  · intro hlt
    obtain ⟨sorted, hs⟩ := (sort_queue_returns_iff cd.queue).mpr hlt
    obtain ⟨res, h1, _⟩ := cscan_dispatch_all_ok p cd force a sorted hne hs hok
    exact ⟨res, h1⟩

/-- C6 at the queue [50, 10, 30]: the block appended is [0, 10, 30, 50, 2097152]. -/
theorem C6_sweep_record_witness :
    ((cd_of [50, 10, 30]).queue ≠ [] ∧ alloc_ok.all_ok (cd_of [50, 10, 30]).queue.length) ∧
      (∃ res, cscan_dispatch default_params (cd_of [50, 10, 30]) 1 alloc_ok = some res ∧
        res.cd.processed_list = [[0, 10, 30, 50, 2097152]]) ∧
      (∀ res, cscan_dispatch default_params (cd_of [50, 10, 30]) 1 alloc_ok = some res →
        ∃ mid, res.cd.processed_list =
            (cd_of [50, 10, 30]).processed_list ++ [0 :: (mid ++ [2097152])] ∧
          List.Perm mid ((cd_of [50, 10, 30]).queue.map request.sector) ∧
          List.Sorted (· ≤ ·) mid ∧
          (0 :: (mid ++ [2097152])).length = (cd_of [50, 10, 30]).queue.length + 2) :=
  ⟨⟨by decide, by decide⟩, ⟨_, rfl, by decide⟩,
    (C6_sweep_record default_params (cd_of [50, 10, 30]) 1 alloc_ok (by decide) (by decide)).1⟩

/-- C8: from the data of a freshly initialised scheduler with `cscan_queue_size = k`,
k ≥ 1, and k successive calls of `cscan_add_request` in which no allocation fails:
whenever the calls return, the first k - 1 have dispatched nothing and the k-th has run
the one dispatch, which returned 1 and handed on all k requests in non-decreasing sector
order; afterwards the queue is empty, `request_count` is 0 and the processed list holds
exactly one block.  The calls do return when every submitted sector is below
`ULONG_MAX`. -/
theorem C8_threshold_triggers_one_dispatch (p : module_params) (m2j : Int → Int)
    (jiffies : Int) (q : Nat) (alloc_eq alloc_cd : Bool) (cd0 : cscan_data) (k : Nat)
    (calls : List (request × alloc_outcome)) (hk : 1 ≤ k)
    (hsize : p.cscan_queue_size = (k : Int))
    (hinit : cscan_init_queue p m2j jiffies q alloc_eq alloc_cd = (0, some cd0))
    (hlen : calls.length = k) (hok : ∀ c ∈ calls, c.2.all_ok k) :
    (∀ cd rs, add_requests p cd0 calls = some (cd, rs) →
        rs.map (fun r => r.dispatch_ret) = List.replicate (k - 1) none ++ [some 1] ∧
        (∃ d, rs.map (fun r => r.dispatched) = List.replicate (k - 1) [] ++ [d] ∧
          List.Perm d (calls.map Prod.fst) ∧ nondecreasing d) ∧
        cd.queue = [] ∧ cd.request_count = 0 ∧ cd.processed_list.length = 1) ∧
      ((∀ c ∈ calls, c.1.sector < ULONG_MAX) →
        ∃ cd rs, add_requests p cd0 calls = some (cd, rs)) := by
  obtain ⟨hq0, hc0, hl0⟩ := cscan_init_queue_ok p m2j jiffies q alloc_eq alloc_cd cd0 hinit
  rcases List.eq_nil_or_concat calls with rfl | ⟨front, last, rfl⟩
  · simp at hlen; omega
  rw [List.concat_eq_append] at hlen hok ⊢
  have hfl : front.length = k - 1 := by simp at hlen; omega
  obtain ⟨rs1, h1, h2, h3⟩ := add_requests_below p cd0 front (by rw [hc0, hsize, hfl]; omega)
  have happ := add_requests_append p cd0 _ front [last] rs1 h1
  rw [add_requests_single] at happ
  have hthr : p.cscan_queue_size ≤ (cd0.request_count + (front.length : Int)) + 1 := by
    rw [hc0, hsize, hfl]; omega
  have hoklast : last.2.all_ok (front.map Prod.fst ++ [last.1]).length := by
    have := hok last (by simp)
    simpa [hfl, Nat.sub_add_cancel hk] using this
  have hne : cd0.queue ++ front.map Prod.fst ++ [last.1] ≠ [] := by simp
  have hrs1a : rs1.map (fun r => r.dispatch_ret) = List.replicate (k - 1) none := by
    rw [List.eq_replicate_iff]
    refine ⟨by simp [h2, hfl], ?_⟩
    intro b hb
    obtain ⟨r, hr, rfl⟩ := List.mem_map.mp hb
    exact (h3 r hr).1
  have hrs1b : rs1.map (fun r => r.dispatched) = List.replicate (k - 1) [] := by
    rw [List.eq_replicate_iff]
    refine ⟨by simp [h2, hfl], ?_⟩
    intro b hb
    obtain ⟨r, hr, rfl⟩ := List.mem_map.mp hb
    exact (h3 r hr).2
  constructor
  · intro cd rs hrun
    rw [happ] at hrun
    cases hadd : cscan_add_request p
        { cd0 with queue := cd0.queue ++ front.map Prod.fst,
                   request_count := cd0.request_count + front.length } last.1 last.2 with
    | none => rw [hadd] at hrun; simp at hrun
    | some r =>
      rw [hadd] at hrun
      simp only [Option.map_some', Option.some.injEq, Prod.mk.injEq] at hrun
      obtain ⟨rfl, rfl⟩ := hrun
      rcases cscan_add_request_result p _ last.1 last.2 r hadd with
        ⟨hlt, _⟩ | ⟨_, res, hres, hcd, hdis, hret⟩
      · simp only at hlt
        omega
      · obtain ⟨sorted, hs⟩ := cscan_dispatch_returns p _ 1 last.2 res hne hres
        obtain ⟨res', e1, e2, e3, e4, _, e6, e7⟩ :=
          cscan_dispatch_all_ok p _ 1 last.2 sorted hne hs (by simpa [hq0] using hoklast)
        rw [hres] at e1
        cases e1
        have hperm := sort_queue_perm hs
        refine ⟨?_, ⟨res.dispatched, ?_, ?_, ?_⟩, ?_, ?_, ?_⟩
        · simp [hrs1a, hret, e2]
        · simp [hrs1b, hdis]
        · rw [e7]
          simpa [hq0] using hperm
        · rw [e7]
          exact sort_queue_sorted hs
        · rw [hcd, e3]
        · rw [hcd, e4]
          simp [hc0, hq0, hfl]
        · rw [hcd, e6]
          simp [hl0]
  · intro hlt
    have hlt' : ∀ x ∈ cd0.queue ++ front.map Prod.fst ++ [last.1], x.sector < ULONG_MAX := by
      intro x hx
      rw [hq0] at hx
      simp only [List.nil_append, List.mem_append, List.mem_map, List.mem_singleton] at hx
      rcases hx with ⟨c, hc, rfl⟩ | rfl
      · exact hlt c (by simp [hc])
      · exact hlt last (by simp)
    obtain ⟨sorted, hs⟩ := (sort_queue_returns_iff _).mpr hlt'
    obtain ⟨res, e1, _⟩ :=
      cscan_dispatch_all_ok p
        { cd0 with queue := cd0.queue ++ front.map Prod.fst ++ [last.1],
                   request_count := cd0.request_count + front.length + 1 } 1 last.2 sorted hne hs
        (by simpa [hq0] using hoklast)
    obtain ⟨r, hr⟩ := cscan_add_request_at_threshold p
      { cd0 with queue := cd0.queue ++ front.map Prod.fst,
                 request_count := cd0.request_count + front.length } last.1 last.2 res hthr e1
    rw [happ, hr]
    exact ⟨_, _, rfl⟩

/-- C8 with threshold 3 and the sectors 50, 10, 30: the first two calls dispatch
nothing, the third hands on 10, 30, 50, and the scheduler is left with an empty queue,
count 0 and the single block [0, 10, 30, 50, 2097152]. -/
theorem C8_threshold_triggers_one_dispatch_witness :
    (1 ≤ 3 ∧ (params_of_size 3).cscan_queue_size = ((3 : Nat) : Int) ∧
        cscan_init_queue (params_of_size 3) id 0 1 true true =
          (0, some { queue := [], dispatch_timer := { data := 1, expires := some 100 },
                     request_count := 0, processed_list := [] }) ∧
        (calls_of [50, 10, 30]).length = 3 ∧ ∀ c ∈ calls_of [50, 10, 30], c.2.all_ok 3) ∧
      (∃ cd rs,
        add_requests (params_of_size 3)
            { queue := [], dispatch_timer := { data := 1, expires := some 100 },
              request_count := 0, processed_list := [] } (calls_of [50, 10, 30]) =
          some (cd, rs) ∧
        rs.map (fun r => r.dispatch_ret) = [none, none, some 1] ∧
        rs.map (fun r => r.dispatched) = [[], [], [⟨1, 10⟩, ⟨2, 30⟩, ⟨0, 50⟩]] ∧
        cd.queue = [] ∧ cd.request_count = 0 ∧
        cd.processed_list = [[0, 10, 30, 50, 2097152]]) ∧
      (∀ cd rs,
        add_requests (params_of_size 3)
            { queue := [], dispatch_timer := { data := 1, expires := some 100 },
              request_count := 0, processed_list := [] } (calls_of [50, 10, 30]) =
          some (cd, rs) →
        rs.map (fun r => r.dispatch_ret) = List.replicate (3 - 1) none ++ [some 1] ∧
        (∃ d, rs.map (fun r => r.dispatched) = List.replicate (3 - 1) [] ++ [d] ∧
          List.Perm d ((calls_of [50, 10, 30]).map Prod.fst) ∧ nondecreasing d) ∧
        cd.queue = [] ∧ cd.request_count = 0 ∧ cd.processed_list.length = 1) :=
  ⟨⟨by decide, by decide, by decide, by decide, by decide⟩,
    ⟨_, _, rfl, by decide, by decide, by decide, by decide, by decide⟩,
    (C8_threshold_triggers_one_dispatch (params_of_size 3) id 0 1 true true _ 3
      (calls_of [50, 10, 30]) (by decide) (by decide) (by decide) (by decide) (by decide)).1⟩

/-- C10, the code at the failing input: queue [50, 10, 30], every allocation succeeding
except the sector node of the second pass.  The call returns 1 with the queue empty and
`request_count` 0, but only the requests of sectors 10 and 50 were handed to
`elv_dispatch_sort`: the request of sector 30 is in neither the queue nor the calls, and
the block is [0, 10, 50, 2097152]. -/
theorem C10_sector_alloc_failure_drops_request :
    ∃ res, cscan_dispatch default_params (cd_of [50, 10, 30]) 1 (alloc_fail_sector 1) =
        some res ∧
      res.ret = 1 ∧ res.dispatched = [⟨1, 10⟩, ⟨0, 50⟩] ∧
      (⟨2, 30⟩ : request) ∈ (cd_of [50, 10, 30]).queue ∧
      (⟨2, 30⟩ : request) ∉ res.dispatched ∧ res.cd.queue = [] ∧
      res.cd.request_count = 0 ∧ res.cd.processed_list = [[0, 10, 50, 2097152]] :=
  ⟨_, rfl, by decide, by decide, by decide, by decide, by decide, by decide, by decide⟩

/-- C11: for every dispatch on a non-empty queue whose block and sector allocations
succeed, whatever the two sentinel allocations do: whenever the call returns it returns
1, has handed on a permutation of the queue in non-decreasing sector order, has emptied
the queue, and has appended one block that holds all queued sectors in non-decreasing
order, preceded by 0 exactly when the opening sentinel was allocated and followed by
2097152 exactly when the closing sentinel was allocated.  The call does return when
every queued sector is below `ULONG_MAX`. -/
theorem C11_sentinel_alloc_failure (p : module_params) (cd : cscan_data) (force : Int)
    (a : alloc_outcome) (hne : cd.queue ≠ []) (hb : a.block = true)
    (hk : ∀ k, k < cd.queue.length → a.sector k = true) :
    (∀ res, cscan_dispatch p cd force a = some res →
        res.ret = 1 ∧ List.Perm res.dispatched cd.queue ∧ nondecreasing res.dispatched ∧
        res.cd.queue = [] ∧
        ∃ mid, List.Perm mid (cd.queue.map request.sector) ∧ List.Sorted (· ≤ ·) mid ∧
          res.cd.processed_list =
            cd.processed_list ++
              [(if a.first_sentinel then [0] else []) ++ mid ++
                (if a.last_sentinel then [2097152] else [])]) ∧
      ((∀ x ∈ cd.queue, x.sector < ULONG_MAX) →
        ∃ res, cscan_dispatch p cd force a = some res) := by
  constructor
  · intro res hres
    obtain ⟨sorted, hs⟩ := cscan_dispatch_returns p cd force a res hne hres
    obtain ⟨res', h1, h2, h3, _, _, h6, h7⟩ := cscan_dispatch_sweep p cd force a sorted hne hs hb
    rw [hres] at h1
    cases h1
    have hperm := sort_queue_perm hs
    have hkept : kept a.sector 0 sorted = sorted := by
      apply kept_all
      intro i hi
      rw [Nat.zero_add]
      exact hk i (by rw [← hperm.length_eq]; exact hi)
    refine ⟨h2, ?_, ?_, h3, sorted.map request.sector, hperm.map _, ?_, ?_⟩
    · rw [h7, hkept]; exact hperm
    · rw [h7, hkept]; exact sort_queue_sorted hs
    · have := sort_queue_sorted hs
      unfold nondecreasing at this
      exact List.pairwise_map.mpr this
    · rw [h6, block_of, hkept]
      rfl
  · intro hlt
    obtain ⟨sorted, hs⟩ := (sort_queue_returns_iff cd.queue).mpr hlt
    obtain ⟨res, h1, _⟩ := cscan_dispatch_sweep p cd force a sorted hne hs hb
    exact ⟨res, h1⟩

/-- C11 at the queue [50, 10, 30]: with only the opening sentinel failing the block is
[10, 30, 50, 2097152], with only the closing sentinel failing it is [0, 10, 30, 50], and
in both runs the requests go out in the order 10, 30, 50. -/
theorem C11_sentinel_alloc_failure_witness :
    ((cd_of [50, 10, 30]).queue ≠ [] ∧
        ({ alloc_ok with first_sentinel := false } : alloc_outcome).block = true ∧
        ∀ k, k < (cd_of [50, 10, 30]).queue.length →
          ({ alloc_ok with first_sentinel := false } : alloc_outcome).sector k = true) ∧
      (∃ res, cscan_dispatch default_params (cd_of [50, 10, 30]) 1
            { alloc_ok with first_sentinel := false } = some res ∧
          res.dispatched = [⟨1, 10⟩, ⟨2, 30⟩, ⟨0, 50⟩] ∧
          res.cd.processed_list = [[10, 30, 50, 2097152]]) ∧
      (∃ res, cscan_dispatch default_params (cd_of [50, 10, 30]) 1
            { alloc_ok with last_sentinel := false } = some res ∧
          res.dispatched = [⟨1, 10⟩, ⟨2, 30⟩, ⟨0, 50⟩] ∧
          res.cd.processed_list = [[0, 10, 30, 50]]) ∧
      ∃ res, cscan_dispatch default_params (cd_of [50, 10, 30]) 1
          { alloc_ok with first_sentinel := false } = some res :=
  ⟨⟨by decide, by decide, by decide⟩, ⟨_, rfl, by decide, by decide⟩,
    ⟨_, rfl, by decide, by decide⟩,
    (C11_sentinel_alloc_failure default_params (cd_of [50, 10, 30]) 1
      { alloc_ok with first_sentinel := false } (by decide) (by decide) (by decide)).2
      (by decide)⟩

/-- C14, the code at the failing input: a scheduler whose processed list holds the one
block [0, 5, 2097152].  `cscan_exit_queue` prints the summary, releases the three sector
nodes and the block, and only then calls `del_timer_sync`; the scheduler data is
released after it.  So releases of owned state precede the stopping of the timer. -/
theorem C14_exit_releases_blocks_before_timer_stop :
    cscan_exit_queue { cd_of [] with processed_list := [[0, 5, 2097152]] } =
        [exit_event.printk_summary, exit_event.printk_sector 0, exit_event.printk_sector 5,
          exit_event.printk_sector 2097152, exit_event.printk_end,
          exit_event.kfree_sector 0, exit_event.kfree_sector 5,
          exit_event.kfree_sector 2097152, exit_event.kfree_block,
          exit_event.del_timer_sync, exit_event.kfree_cd] ∧
      ∃ l1 l2,
        cscan_exit_queue { cd_of [] with processed_list := [[0, 5, 2097152]] } =
            l1 ++ exit_event.del_timer_sync :: l2 ∧
          exit_event.kfree_block ∈ l1 ∧ (∃ e ∈ l1, e.releases = true) ∧
          l2 = [exit_event.kfree_cd] :=
  ⟨by decide,
    [exit_event.printk_summary, exit_event.printk_sector 0, exit_event.printk_sector 5,
      exit_event.printk_sector 2097152, exit_event.printk_end, exit_event.kfree_sector 0,
      exit_event.kfree_sector 5, exit_event.kfree_sector 2097152, exit_event.kfree_block],
    [exit_event.kfree_cd], by decide, by decide, ⟨exit_event.kfree_block, by decide, rfl⟩, rfl⟩

/-- C16: `cscan_dispatch` ignores `force` and has no partial mode.  For every scheduler
state and all allocation results, any two values of `force` give the same outcome (the
same return value, requests handed on, resulting data and lines printed, or no return
for either); whenever the call returns with the block allocation succeeding, the queue
is empty and `request_count` has dropped by the number of queued requests, hence is 0
in every state where it counted the queue, as it does in every reachable state.  The
call does return when every queued sector is below `ULONG_MAX`. -/
theorem C16_force_ignored_full_drain (p : module_params) (cd : cscan_data)
    (a : alloc_outcome) :
    (∀ force1 force2 : Int, cscan_dispatch p cd force1 a = cscan_dispatch p cd force2 a) ∧
      (∀ force res, cscan_dispatch p cd force a = some res → a.block = true →
        res.cd.queue = [] ∧
          res.cd.request_count = cd.request_count - cd.queue.length ∧
          (cd.request_count = cd.queue.length → res.cd.request_count = 0)) ∧
      (∀ force, (∀ x ∈ cd.queue, x.sector < ULONG_MAX) →
        ∃ res, cscan_dispatch p cd force a = some res) := by
  refine ⟨fun _ _ => rfl, ?_, ?_⟩
  · intro force res hres hb
    rcases cscan_dispatch_result p cd force a res hres with
      ⟨hq, _, hcd, _⟩ | ⟨_, _, _, hb', _⟩ | ⟨sorted, _, hs, _, _, hq, hc, _⟩
    · rw [hcd]
      refine ⟨hq, by simp [hq], fun h => ?_⟩
      rw [h, hq]; rfl
    · rw [hb] at hb'; cases hb'
    · rw [(sort_queue_perm hs).length_eq] at hc
      refine ⟨hq, hc, fun h => ?_⟩
      rw [hc, h]; simp
  · intro force hlt
    exact cscan_dispatch_returns_of_lt p cd force a hlt

/-- C16 at the queue [50, 10, 30]: with `force = 0` and with `force = 1` the call returns
1, hands on 10, 30, 50 and leaves an empty queue with `request_count` 0. -/
theorem C16_force_ignored_full_drain_witness :
    cscan_dispatch default_params (cd_of [50, 10, 30]) 0 alloc_ok =
        cscan_dispatch default_params (cd_of [50, 10, 30]) 1 alloc_ok ∧
      ∃ res, cscan_dispatch default_params (cd_of [50, 10, 30]) 0 alloc_ok = some res ∧
        res.ret = 1 ∧ res.dispatched = [⟨1, 10⟩, ⟨2, 30⟩, ⟨0, 50⟩] ∧
        (res.cd.queue = [] ∧
          res.cd.request_count =
            (cd_of [50, 10, 30]).request_count - (cd_of [50, 10, 30]).queue.length ∧
          ((cd_of [50, 10, 30]).request_count = (cd_of [50, 10, 30]).queue.length →
            res.cd.request_count = 0)) :=
  ⟨(C16_force_ignored_full_drain default_params (cd_of [50, 10, 30]) alloc_ok).1 0 1,
    _, rfl, by decide, by decide,
    (C16_force_ignored_full_drain default_params (cd_of [50, 10, 30]) alloc_ok).2.1 0 _ rfl
      (by decide)⟩

/-- C17, the code at the failing input: a queue holding one request whose sector is
`ULONG_MAX`, a value an `unsigned long` holds.  The scan never selects it (it is not
below the start value of `min_sector`), so a pass of the outer loop removes nothing and
the loop cannot exit, whatever the number of passes; the same happens once the smaller
sectors of a queue such as [5, `ULONG_MAX`] have been moved. -/
theorem C17_sort_queue_hangs_at_ulong_max :
    (⟨0, ULONG_MAX⟩ : request).wf ∧
      (scan_min [⟨0, ULONG_MAX⟩] none ULONG_MAX).1 = none ∧
      (∀ fuel, sort_loop fuel [⟨0, ULONG_MAX⟩] [] = none) ∧
      sort_queue [⟨0, ULONG_MAX⟩] = none ∧
      (∀ fuel, sort_loop fuel [⟨0, 5⟩, ⟨1, ULONG_MAX⟩] [] = none) ∧
      sort_queue [⟨0, 5⟩, ⟨1, ULONG_MAX⟩] = none :=
  ⟨by decide, by decide,
    fun fuel => sort_loop_stuck fuel _ _ ⟨⟨0, ULONG_MAX⟩, by simp, le_refl _⟩,
    sort_loop_stuck _ _ _ ⟨⟨0, ULONG_MAX⟩, by simp, le_refl _⟩,
    fun fuel => sort_loop_stuck fuel _ _ ⟨⟨1, ULONG_MAX⟩, by simp, le_refl _⟩,
    sort_loop_stuck _ _ _ ⟨⟨1, ULONG_MAX⟩, by simp, le_refl _⟩⟩

/-- C19: the debug flag changes only what is printed.  For every scheduler state,
request, `force` and allocation results, and any two values of `cscan_debug` (0 and 1
among them), `cscan_dispatch` returns for both or for neither, with the same return
value, the same requests handed on and the same resulting scheduler data (queue,
`request_count`, processed list, timer); and so does `cscan_add_request`, with the same
return value of the dispatch it may have called. -/
theorem C19_debug_only_affects_printk (p : module_params) (d0 d1 : Int) (cd : cscan_data)
    (rq : request) (force : Int) (a : alloc_outcome) :
    (cscan_dispatch { p with cscan_debug := d0 } cd force a).map
          (fun r => (r.ret, r.cd, r.dispatched)) =
        (cscan_dispatch { p with cscan_debug := d1 } cd force a).map
          (fun r => (r.ret, r.cd, r.dispatched)) ∧
      (cscan_add_request { p with cscan_debug := d0 } cd rq a).map
          (fun r => (r.cd, r.dispatched, r.dispatch_ret)) =
        (cscan_add_request { p with cscan_debug := d1 } cd rq a).map
          (fun r => (r.cd, r.dispatched, r.dispatch_ret)) :=
  ⟨cscan_dispatch_params _ _ cd force a, cscan_add_request_params _ _ cd rq a rfl⟩

/-- C19 at the queue [50, 10, 30]: with `cscan_debug` 0 and 1 the dispatch returns the
same value, data and requests, while the lines printed differ (one line against ten). -/
theorem C19_debug_only_affects_printk_witness :
    ∃ r0 r1,
      cscan_dispatch { default_params with cscan_debug := 0 } (cd_of [50, 10, 30]) 1 alloc_ok =
          some r0 ∧
        cscan_dispatch { default_params with cscan_debug := 1 } (cd_of [50, 10, 30]) 1
            alloc_ok = some r1 ∧
        r0.ret = r1.ret ∧ r0.cd = r1.cd ∧ r0.dispatched = r1.dispatched ∧
        r0.printk.length = 1 ∧ r1.printk.length = 10 ∧
        (cscan_dispatch { default_params with cscan_debug := 0 } (cd_of [50, 10, 30]) 1
              alloc_ok).map (fun r => (r.ret, r.cd, r.dispatched)) =
          (cscan_dispatch { default_params with cscan_debug := 1 } (cd_of [50, 10, 30]) 1
              alloc_ok).map (fun r => (r.ret, r.cd, r.dispatched)) :=
  ⟨_, _, rfl, rfl, by decide, by decide, by decide, by decide, by decide,
    (C19_debug_only_affects_printk default_params 0 1 (cd_of [50, 10, 30]) ⟨0, 0⟩ 1
      alloc_ok).1⟩

/-- C20: ties go by scan order.  For every queue: the request a pass of `sort_queue`
selects is the first in queue order among those with the least sector (every request
before it has a strictly larger sector, every request after it one at least as large);
whenever `sort_queue` returns, the requests of any one sector value appear in the result
in the same relative order as in the queue it was given (the sort is stable), and a
queue that was already non-decreasing is returned unchanged.  The call does return when
every queued sector is below `ULONG_MAX`. -/
theorem C20_sort_queue_stable (q : List request) :
    (∀ m, (scan_min q none ULONG_MAX).1 = some m →
        ∃ l1 l2, q = l1 ++ m :: l2 ∧ (∀ x ∈ l1, m.sector < x.sector) ∧
          ∀ x ∈ l2, m.sector ≤ x.sector) ∧
      (∀ r, sort_queue q = some r →
        ∀ k, r.filter (fun x => decide (x.sector = k)) =
          q.filter (fun x => decide (x.sector = k))) ∧
      (∀ r, sort_queue q = some r → nondecreasing q → r = q) ∧
      ((∀ x ∈ q, x.sector < ULONG_MAX) → ∃ r, sort_queue q = some r) := by
  refine ⟨?_, ?_, ?_, ?_⟩
  · intro m hm
    obtain ⟨l1, l2, h1, _, h3, h4⟩ := scan_min_first hm
    exact ⟨l1, l2, h1, h3, h4⟩
  · intro r hr k
    have := sort_loop_stable _ _ _ _ hr k
    simpa using this
  · intro r hr hq
    have := sort_loop_of_sorted _ _ _ _ hr hq
    simpa using this
  · intro hlt
    exact (sort_queue_returns_iff q).mpr hlt

/-- C20 at the queue of sectors [20, 5, 20, 5] (requests 0 to 3): `sort_queue` returns
the requests 1, 3, 0, 2, so the two requests of sector 5 and the two of sector 20 keep
their order; and the non-decreasing queue [5, 20, 20] is returned as it is. -/
theorem C20_sort_queue_stable_witness :
    (∀ x ∈ queue_of [20, 5, 20, 5], x.sector < ULONG_MAX) ∧
      sort_queue (queue_of [20, 5, 20, 5]) = some [⟨1, 5⟩, ⟨3, 5⟩, ⟨0, 20⟩, ⟨2, 20⟩] ∧
      (∀ k, ([⟨1, 5⟩, ⟨3, 5⟩, ⟨0, 20⟩, ⟨2, 20⟩] : List request).filter
            (fun x => decide (x.sector = k)) =
          (queue_of [20, 5, 20, 5]).filter (fun x => decide (x.sector = k))) ∧
      nondecreasing (queue_of [5, 20, 20]) ∧
      sort_queue (queue_of [5, 20, 20]) = some (queue_of [5, 20, 20]) ∧
      ∃ r, sort_queue (queue_of [20, 5, 20, 5]) = some r :=
  ⟨by decide, by decide,
    (C20_sort_queue_stable (queue_of [20, 5, 20, 5])).2.1 _
      (by decide :
        sort_queue (queue_of [20, 5, 20, 5]) = some [⟨1, 5⟩, ⟨3, 5⟩, ⟨0, 20⟩, ⟨2, 20⟩]),
    by decide, by decide,
    (C20_sort_queue_stable (queue_of [20, 5, 20, 5])).2.2.2 (by decide)⟩

/-- C21: for every dispatch on a non-empty queue whose block allocation fails: whenever
the call returns it returns `-ENOMEM`, has handed on no request, and leaves
`request_count` and the processed list as they were; the queue holds the same requests,
now in non-decreasing sector order, and any later dispatch in which no allocation fails
hands on all of them and empties the queue.  The call does return when every queued
sector is below `ULONG_MAX`. -/
theorem C21_block_alloc_failure (p : module_params) (cd : cscan_data) (force : Int)
    (a : alloc_outcome) (hne : cd.queue ≠ []) (hb : a.block = false) :
    (∀ res, cscan_dispatch p cd force a = some res →
        res.ret = -ENOMEM ∧ res.ret = -12 ∧ res.dispatched = [] ∧
        res.cd.request_count = cd.request_count ∧
        res.cd.processed_list = cd.processed_list ∧
        List.Perm res.cd.queue cd.queue ∧ nondecreasing res.cd.queue ∧
        ∀ force2 a2, a2.all_ok cd.queue.length →
          ∃ res2, cscan_dispatch p res.cd force2 a2 = some res2 ∧
            List.Perm res2.dispatched cd.queue ∧ nondecreasing res2.dispatched ∧
            res2.cd.queue = []) ∧
      ((∀ x ∈ cd.queue, x.sector < ULONG_MAX) →
        ∃ res, cscan_dispatch p cd force a = some res) := by
  constructor
  · intro res hres
    obtain ⟨sorted, hs⟩ := cscan_dispatch_returns p cd force a res hne hres
    obtain ⟨res', h1, h2, h3, h4⟩ := cscan_dispatch_enomem p cd force a sorted hne hs hb
    rw [hres] at h1
    cases h1
    have hperm := sort_queue_perm hs
    have hsorted := sort_queue_sorted hs
    refine ⟨h2, by rw [h2]; rfl, h4, by rw [h3], by rw [h3], by rw [h3]; exact hperm,
      by rw [h3]; exact hsorted, ?_⟩
    intro force2 a2 hok2
    have hq : res.cd.queue = sorted := by rw [h3]
    have hne2 : res.cd.queue ≠ [] := by
      rw [hq]
      intro he
      rw [he] at hperm
      exact hne (List.Perm.nil_eq hperm).symm
    have hlt : ∀ x ∈ res.cd.queue, x.sector < ULONG_MAX := by
      intro x hx
      rw [hq] at hx
      exact (sort_queue_returns_iff cd.queue).mp ⟨sorted, hs⟩ x (hperm.subset hx)
    obtain ⟨sorted2, hs2⟩ := (sort_queue_returns_iff res.cd.queue).mpr hlt
    obtain ⟨res2, e1, _, e3, _, _, _, e7⟩ :=
      cscan_dispatch_all_ok p res.cd force2 a2 sorted2 hne2 hs2
        (by rw [hq, hperm.length_eq]; exact hok2)
    refine ⟨res2, e1, ?_, ?_, e3⟩
    · rw [e7]
      exact (sort_queue_perm hs2).trans (by rw [hq]; exact hperm)
    · rw [e7]
      exact sort_queue_sorted hs2
  · intro hlt
    exact cscan_dispatch_returns_of_lt p cd force a hlt

/-- C21 at the queue [50, 10, 30] with the block allocation failing: the call returns
-12 with nothing handed on, `request_count` still 3, the processed list still empty and
the queue reordered to 10, 30, 50. -/
theorem C21_block_alloc_failure_witness :
    ((cd_of [50, 10, 30]).queue ≠ [] ∧
        ({ alloc_ok with block := false } : alloc_outcome).block = false) ∧
      (∃ res, cscan_dispatch default_params (cd_of [50, 10, 30]) 1
            { alloc_ok with block := false } = some res ∧
          res.ret = -12 ∧ res.dispatched = [] ∧ res.cd.request_count = 3 ∧
          res.cd.processed_list = [] ∧ res.cd.queue = [⟨1, 10⟩, ⟨2, 30⟩, ⟨0, 50⟩]) ∧
      ∃ res, cscan_dispatch default_params (cd_of [50, 10, 30]) 1
          { alloc_ok with block := false } = some res :=
  ⟨⟨by decide, by decide⟩, ⟨_, rfl, by decide, by decide, by decide, by decide, by decide⟩,
    (C21_block_alloc_failure default_params (cd_of [50, 10, 30]) 1
      { alloc_ok with block := false } (by decide) (by decide)).2 (by decide)⟩

/-- C12, at the state `cscan_init_queue` installs for the request queue at address 1
(empty queue, `request_count` 0), the scheduler data lying at address 2: the expiry of
the timer calls the callback with `dispatch_timer.data`, the address 1 of the request
queue, which the callback casts to `struct cscan_data *`; it reads
`cd->dispatch_timer.data` and `cd->request_count` out of the request queue, so the
firing has no defined result, at any clock value and under any allocation results. -/
theorem C12_timer_expiry_on_empty_queue_undefined :
    ∃ cd, cscan_init_queue default_params id 0 1 true true = (0, some cd) ∧
      cd.queue = [] ∧ cd.request_count = 0 ∧ cd.dispatch_timer.data = 1 ∧
      attached (attached_memory 1 2 cd) 1 2 cd ∧
      (∀ jiffies a,
        cscan_dispatch_timer default_params id jiffies (attached_memory 1 2 cd)
          cd.dispatch_timer.data a = outcome.undefined) ∧
      ∀ jiffies a,
        timer_expiry default_params id jiffies (attached_memory 1 2 cd) 2 a =
          outcome.undefined :=
  ⟨_, rfl, rfl, rfl, rfl, ⟨by decide, rfl, rfl, rfl⟩, fun _ _ => rfl, fun _ _ => rfl⟩

/-- C13, with threshold 10, after `cscan_init_queue` for the request queue at address 1
and one submission of sector 5 (no dispatch), the scheduler data lying at address 2:
`cscan_dispatch` with `force = 1` would hand on the request of sector 5 and leave the
processed list [[0, 5, 2097152]], but the expiry of the timer calls the callback with
the address 1 of the request queue, which it casts to `struct cscan_data *`; the firing
has no defined result, so nothing is handed on by it. -/
theorem C13_timer_expiry_does_not_dispatch :
    ∃ cd r1,
      cscan_init_queue (params_of_size 10) id 0 1 true true = (0, some cd) ∧
        cscan_add_request (params_of_size 10) cd ⟨0, 5⟩ alloc_ok = some r1 ∧
        r1.dispatch_ret = none ∧ r1.cd.queue = [⟨0, 5⟩] ∧ r1.cd.dispatch_timer.data = 1 ∧
        attached (attached_memory 1 2 r1.cd) 1 2 r1.cd ∧
        (∃ res, cscan_dispatch (params_of_size 10) r1.cd 1 alloc_ok = some res ∧
          res.dispatched = [⟨0, 5⟩] ∧ res.cd.processed_list = [[0, 5, 2097152]] ∧
          res.cd.queue = [] ∧ res.cd.request_count = 0) ∧
        timer_expiry (params_of_size 10) id 100 (attached_memory 1 2 r1.cd) 2 alloc_ok =
          outcome.undefined ∧
        ∀ jiffies a r,
          timer_expiry (params_of_size 10) id jiffies (attached_memory 1 2 r1.cd) 2 a ≠
            outcome.returns r :=
  ⟨_, _, rfl, rfl, rfl, rfl, rfl, ⟨by decide, rfl, rfl, rfl⟩,
    ⟨_, rfl, by decide, by decide, by decide, by decide⟩, rfl,
    fun _ _ _ h => outcome.noConfusion h⟩

/-- C18, with `cscan_max_wait = 100` and the identity for `msecs_to_jiffies`:
`cscan_init_queue` at `jiffies = 0` for the request queue at address 1 arms the timer at
100.  With the scheduler data at address 2, the expiry at `jiffies = 100` calls the
callback with the address 1 of the request queue, cast to `struct cscan_data *`: the
`mod_timer` of the callback is applied to `&cd->dispatch_timer` inside the request queue,
and the firing has no defined result.  So it is with an empty queue, with the queue
[50, 10], and with a failing block allocation: no expiry returns with the timer of the
scheduler data armed at 200. -/
theorem C18_timer_expiry_does_not_rearm :
    ∃ cd,
      cscan_init_queue default_params id 0 1 true true = (0, some cd) ∧
        cd.dispatch_timer = { data := 1, expires := some 100 } ∧
        timer_expiry default_params id 100 (attached_memory 1 2 cd) 2 alloc_ok =
          outcome.undefined ∧
        timer_expiry default_params id 100
            (attached_memory 1 2 { cd_of [50, 10] with dispatch_timer := cd.dispatch_timer }) 2
            alloc_ok = outcome.undefined ∧
        timer_expiry default_params id 100
            (attached_memory 1 2 { cd_of [50, 10] with dispatch_timer := cd.dispatch_timer }) 2
            { alloc_ok with block := false } = outcome.undefined ∧
        ¬ ∃ r cd', timer_expiry default_params id 100 (attached_memory 1 2 cd) 2 alloc_ok =
              outcome.returns r ∧
            r.mem 2 = some (object.scheduler cd') ∧
            cd'.dispatch_timer.expires = some 200 :=
  ⟨_, rfl, rfl, rfl, rfl, rfl, fun ⟨_, _, h, _⟩ => outcome.noConfusion h⟩

end Cscan

namespace Mqueue

/-! ## Facts about the message-queue operations -/

/-- The read loop started at counter `i` drops `num_messages - i` messages from the
head (none when that is not positive). -/
theorem read_loop_drop (num_messages i : Int) (l : List message_s) :
    read_loop num_messages i l = l.drop (num_messages - i).toNat := by
  induction l generalizing i with
  | nil => simp [read_loop]
  | cons msg rest ih =>
    rw [read_loop]
    by_cases h : i ≥ num_messages
    · have h0 : (num_messages - i).toNat = 0 := by omega
      simp [h, h0]
    · have h1 : (num_messages - i).toNat = (num_messages - (i + 1)).toNat + 1 := by omega
      simp only [h, if_false, h1, List.drop_succ_cons]
      exact ih (i + 1)

/-- The read command acts on the first process of the given name: the processes before
it and after it are left as they are. -/
theorem dev_write_read_at (name : String) (n len : Int) (before after : List process_s)
    (proc : process_s) (hname : proc.name = name) (hfirst : ∀ q ∈ before, q.name ≠ name) :
    dev_write_read name n len (before ++ proc :: after) =
      if (proc.msg_list.length : Int) = 0 then (-EINVAL, before ++ proc :: after)
      else if (proc.msg_list.length : Int) < n then (-EINVAL, before ++ proc :: after)
      else (len, before ++ { proc with msg_list := proc.msg_list.drop n.toNat } :: after) := by
  induction before with
  | nil =>
    simp only [List.nil_append, dev_write_read, hname, if_true, read_loop_drop, Int.sub_zero]
  | cons q rest ih =>
    have hq : q.name ≠ name := hfirst q (List.mem_cons_self _ _)
    have ih' := ih (fun x hx => hfirst x (List.mem_cons_of_mem _ hx))
    rw [List.cons_append, dev_write_read, if_neg hq, ih']
    split
    · rfl
    · split <;> rfl

/-- The send of a message keeps the bounds of a mailbox, whatever it returns. -/
theorem list_add_message_inv (p : mq_params) (proc : process_s) (data : String)
    (a1 a2 : Bool) (r : Int × process_s) (hinv : mailbox_inv p proc)
    (h : list_add_message_to_process p proc data a1 a2 = some r) : mailbox_inv p r.2 := by
  unfold mailbox_inv at hinv ⊢
  obtain ⟨h1, h2⟩ := hinv
  unfold list_add_message_to_process at h
  by_cases hfull : proc.msg_count ≥ p.max_messages
  · cases hl : proc.msg_list with
    | nil => simp [hfull, hl] at h
    | cons m rest =>
      rw [hl] at h1 h2
      simp only [List.length_cons, Nat.cast_add, Nat.cast_one] at h1 h2
      simp only [hfull, if_true, hl] at h
      split at h
      · cases h; simp only; constructor <;> omega
      · split at h
        · split at h
          · cases h
            simp only [List.length_append, List.length_singleton, Nat.cast_add, Nat.cast_one]
            constructor <;> omega
          · cases h; simp only; constructor <;> omega
        · cases h; simp only; constructor <;> omega
  · simp only [hfull, if_false] at h
    split at h
    · cases h; exact ⟨h1, h2⟩
    · split at h
      · split at h
        · cases h
          simp only [List.length_append, List.length_singleton, Nat.cast_add, Nat.cast_one]
          constructor <;> omega
        · cases h; exact ⟨h1, h2⟩
      · cases h; exact ⟨h1, h2⟩

/-- The send command keeps the bounds of every mailbox. -/
theorem dev_write_send_inv (p : mq_params) (name : String) (message : Option String)
    (len : Int) (a1 a2 : Bool) (pl : List process_s) (r : Int × List process_s)
    (hinv : ∀ proc ∈ pl, mailbox_inv p proc)
    (h : dev_write_send p name message len a1 a2 pl = some r) :
    ∀ proc ∈ r.2, mailbox_inv p proc := by
  induction pl generalizing r with
  | nil =>
    simp only [dev_write_send, Option.some.injEq] at h
    rw [← h]
    simp
  | cons q rest ih =>
    simp only [dev_write_send] at h
    by_cases hq : q.name = name
    · simp only [hq, if_true] at h
      cases message with
      | none => simp at h
      | some data =>
        simp only at h
        cases hadd : list_add_message_to_process p q data a1 a2 with
        | none => rw [hadd] at h; simp at h
        | some r' =>
          rw [hadd] at h
          simp only [Option.some.injEq] at h
          rw [← h]
          intro proc hproc
          rcases List.mem_cons.mp hproc with rfl | hproc
          · exact list_add_message_inv p q data a1 a2 r' (hinv q (List.mem_cons_self _ _)) hadd
          · exact hinv proc (List.mem_cons_of_mem _ hproc)
    · simp only [hq, if_false] at h
      cases hrest : dev_write_send p name message len a1 a2 rest with
      | none => rw [hrest] at h; simp at h
      | some r' =>
        rw [hrest] at h
        simp only [Option.some.injEq] at h
        rw [← h]
        intro proc hproc
        rcases List.mem_cons.mp hproc with rfl | hproc
        · exact hinv proc (List.mem_cons_self _ _)
        · exact ih r' (fun x hx => hinv x (List.mem_cons_of_mem _ hx)) hrest proc hproc

/-- The read command keeps the bounds of every mailbox: it only removes messages. -/
theorem dev_write_read_inv (p : mq_params) (name : String) (n len : Int)
    (pl : List process_s) (hinv : ∀ proc ∈ pl, mailbox_inv p proc) :
    ∀ proc ∈ (dev_write_read name n len pl).2, mailbox_inv p proc := by
  induction pl with
  | nil => simp [dev_write_read]
  | cons q rest ih =>
    have hq := hinv q (List.mem_cons_self _ _)
    have hrest := ih (fun x hx => hinv x (List.mem_cons_of_mem _ hx))
    rw [dev_write_read]
    split
    · split
      · exact hinv
      · split
        · exact hinv
        · intro proc hproc
          rcases List.mem_cons.mp hproc with rfl | hproc
          · unfold mailbox_inv at hq ⊢
            simp only [read_loop_drop, List.length_drop]
            constructor <;> omega
          · exact hinv proc (List.mem_cons_of_mem _ hproc)
    · intro proc hproc
      rcases List.mem_cons.mp hproc with rfl | hproc
      · exact hq
      · exact hrest proc hproc

/-- Unregistering only removes a process. -/
theorem unregister_process_subset (pl : List process_s) (name : String) (pid : Int) :
    ∀ proc ∈ (unregister_process pl name pid).2, proc ∈ pl := by
  induction pl with
  | nil => simp [unregister_process]
  | cons q rest ih =>
    rw [unregister_process]
    split
    · intro proc hproc
      exact List.mem_cons_of_mem _ hproc
    · intro proc hproc
      rcases List.mem_cons.mp hproc with rfl | hproc
      · exact List.mem_cons_self _ _
      · exact List.mem_cons_of_mem _ (ih proc hproc)

/-- Every call of `dev_write` with a defined result keeps the bounds of every mailbox,
provided `max_messages` is not negative. -/
theorem dev_write_inv (p : mq_params) (pl : List process_s) (pid : Int) (cmd : command)
    (len : Nat) (a1 a2 : Bool) (r : Int × List process_s) (hmax : 0 ≤ p.max_messages)
    (hinv : ∀ proc ∈ pl, mailbox_inv p proc)
    (h : dev_write p pl pid cmd len a1 a2 = some r) : ∀ proc ∈ r.2, mailbox_inv p proc := by
  cases cmd with
  | reg name =>
    simp only [dev_write, Option.some.injEq] at h
    rw [← h]
    simp only [register_process]
    cases a1 <;> cases a2 <;> simp only [if_true, if_false, Bool.false_eq_true] <;>
      try exact hinv
    intro proc hproc
    rcases List.mem_append.mp hproc with hproc | hproc
    · exact hinv proc hproc
    · rw [List.mem_singleton] at hproc
      rw [hproc]
      exact ⟨by simp, by simpa using hmax⟩
  | unreg name =>
    simp only [dev_write, Option.some.injEq] at h
    rw [← h]
    intro proc hproc
    exact hinv proc (unregister_process_subset pl name pid proc hproc)
  | read name num =>
    simp only [dev_write, Option.some.injEq] at h
    rw [← h]
    exact dev_write_read_inv p name _ _ pl hinv
  | send name message =>
    simp only [dev_write] at h
    exact dev_write_send_inv p name message len a1 a2 pl r hinv h
  | invalid =>
    simp only [dev_write, Option.some.injEq] at h
    rw [← h]
    exact hinv

/-- Every mailbox of a reachable process list is within its bounds. -/
theorem reachable_inv (p : mq_params) (pl : List process_s) (hmax : 0 ≤ p.max_messages)
    (h : reachable p pl) : ∀ proc ∈ pl, mailbox_inv p proc := by
  induction h with
  | init => simp
  | write pl pid cmd len a1 a2 r _ hw ih => exact dev_write_inv p pl pid cmd len a1 a2 r hmax ih hw

/-- The send of a message has a defined result unless it must evict from an empty
mailbox. -/
theorem list_add_message_defined (p : mq_params) (proc : process_s) (data : String)
    (a1 a2 : Bool) (h : proc.msg_count < p.max_messages ∨ proc.msg_list ≠ []) :
    ∃ r, list_add_message_to_process p proc data a1 a2 = some r := by
  unfold list_add_message_to_process
  by_cases hfull : proc.msg_count ≥ p.max_messages
  · cases hl : proc.msg_list with
    | nil =>
      rcases h with h | h
      · omega
      · exact absurd hl h
    | cons m rest =>
      simp only [hfull, if_true]
      split <;> [skip; split <;> [split; skip]] <;> exact ⟨_, rfl⟩
  · simp only [hfull, if_false]
    split <;> [skip; split <;> [split; skip]] <;> exact ⟨_, rfl⟩

/-- The send command has a defined result when the buffer holds a message and no
mailbox is both counted full and empty. -/
theorem dev_write_send_defined (p : mq_params) (name data : String) (len : Int)
    (a1 a2 : Bool) (pl : List process_s)
    (h : ∀ proc ∈ pl, proc.msg_count < p.max_messages ∨ proc.msg_list ≠ []) :
    ∃ r, dev_write_send p name (some data) len a1 a2 pl = some r := by
  induction pl with
  | nil => exact ⟨_, rfl⟩
  | cons q rest ih =>
    simp only [dev_write_send]
    by_cases hq : q.name = name
    · obtain ⟨r, hr⟩ := list_add_message_defined p q data a1 a2 (h q (List.mem_cons_self _ _))
      simp only [hq, if_true, hr]
      exact ⟨_, rfl⟩
    · obtain ⟨r, hr⟩ := ih (fun x hx => h x (List.mem_cons_of_mem _ hx))
      simp only [hq, if_false, hr]
      exact ⟨_, rfl⟩

/-- A send rejected with `-EINVAL` on a mailbox whose `msg_count` is below
`max_messages` leaves the process as it was. -/
theorem list_add_message_rejected_not_full (p : mq_params) (proc : process_s)
    (data : String) (a1 a2 : Bool) (r : Int × process_s)
    (hnot : proc.msg_count < p.max_messages)
    (h : list_add_message_to_process p proc data a1 a2 = some r) (hret : r.1 = -EINVAL) :
    r.2 = proc := by
  have hfull : ¬ proc.msg_count ≥ p.max_messages := by omega
  unfold list_add_message_to_process at h
  simp only [hfull, if_false] at h
  split at h
  · cases h; rfl
  · split at h
    · split at h
      · cases h
        simp [EINVAL] at hret
      · cases h; rfl
    · cases h; rfl

/-- The unsigned comparison of the length test agrees with the comparison of the
integers when the parameters are C `int`s and the length is at most `max_msg_size`. -/
theorem length_test_passes (p : mq_params) (data : String) (hwf : p.wf)
    (hlen : (data.length : Int) ≤ p.max_msg_size) :
    ¬ ((data.length : Int) > to_size_t p.max_msg_size) := by
  obtain ⟨_, _, _, h4⟩ := hwf
  have h0 : (0 : Int) ≤ p.max_msg_size := by omega
  have : to_size_t p.max_msg_size = p.max_msg_size := by
    unfold to_size_t
    exact Int.emod_eq_of_lt h0 (by omega)
  rw [this]
  omega

/-! ## The claims on the message queue -/

/-- C23, the code at the failing input: with the default parameters, a process `p` is
registered, one message is sent to it and `/read p 1` is written.  After the send the
mailbox holds one message and `msg_count` is 1; after the read the mailbox is empty and
`msg_count` is still 1, since the read command never writes `msg_count`.  With
`max_messages = 1` the next send then evicts from the empty mailbox and has no defined
result. -/
theorem C23_read_leaves_msg_count :
    (∃ r1 r2 r3,
        dev_write mq_defaults [] 7 (command.reg "p") 6 true true = some r1 ∧
          dev_write mq_defaults r1.2 7 (command.send "p" (some "hello")) 8 true true =
            some r2 ∧
          dev_write mq_defaults r2.2 7 (command.read "p" (some 1)) 9 true true = some r3 ∧
          r2.2 = [{ pid := 7, name := "p", msg_list := [⟨"hello", 5⟩], msg_count := 1 }] ∧
          r3.1 = 9 ∧
          r3.2 = [{ pid := 7, name := "p", msg_list := [], msg_count := 1 }]) ∧
      dev_write { max_messages := 1, max_msg_size := 250 }
          [{ pid := 7, name := "p", msg_list := [], msg_count := 1 }] 7
          (command.send "p" (some "again")) 8 true true = none :=
  ⟨⟨_, _, _, rfl, rfl, rfl, by decide, by decide, by decide⟩, by decide⟩

/-- C24: with `max_messages` at least 1, in every process list reachable from the empty
one by calls of `dev_write` (register, unregister, read, send or invalid commands, any
caller, any allocation results), no process holds more than `max_messages` messages.
A call of `dev_write` has a defined result whenever its buffer is not a send without a
blank and no mailbox is empty while `msg_count` has reached `max_messages`. -/
theorem C24_mailbox_bounded (p : mq_params) (pl : List process_s)
    (hmax : 1 ≤ p.max_messages) (h : reachable p pl) :
    (∀ proc ∈ pl, (proc.msg_list.length : Int) ≤ p.max_messages) ∧
      ∀ (pid : Int) (cmd : command) (len : Nat) (a1 a2 : Bool),
        (∀ name, cmd ≠ command.send name none) →
        (∀ proc ∈ pl, proc.msg_count < p.max_messages ∨ proc.msg_list ≠ []) →
        ∃ r, dev_write p pl pid cmd len a1 a2 = some r := by
  constructor
  · intro proc hproc
    exact (reachable_inv p pl (by omega) h proc hproc).2
  · intro pid cmd len a1 a2 hcmd hpl
    cases cmd with
    | reg name => exact ⟨_, rfl⟩
    | unreg name => exact ⟨_, rfl⟩
    | read name num => exact ⟨_, rfl⟩
    | invalid => exact ⟨_, rfl⟩
    | send name message =>
      cases message with
      | none => exact absurd rfl (hcmd name)
      | some data => exact dev_write_send_defined p name data len a1 a2 pl hpl

/-- C24 with `max_messages = 1`: after registering `p` and sending it "a" and then "b",
the mailbox holds the single message "b". -/
theorem C24_mailbox_bounded_witness :
    ∃ r1 r2 r3,
      dev_write { max_messages := 1, max_msg_size := 250 } [] 7 (command.reg "p") 6 true true =
          some r1 ∧
        dev_write { max_messages := 1, max_msg_size := 250 } r1.2 7
            (command.send "p" (some "a")) 4 true true = some r2 ∧
        dev_write { max_messages := 1, max_msg_size := 250 } r2.2 7
            (command.send "p" (some "b")) 4 true true = some r3 ∧
        r3.2 = [{ pid := 7, name := "p", msg_list := [⟨"b", 1⟩], msg_count := 1 }] ∧
        (1 ≤ ({ max_messages := 1, max_msg_size := 250 } : mq_params).max_messages ∧
          reachable { max_messages := 1, max_msg_size := 250 } r3.2) ∧
        ∀ proc ∈ r3.2,
          (proc.msg_list.length : Int) ≤
            ({ max_messages := 1, max_msg_size := 250 } : mq_params).max_messages :=
  have hreach :=
    reachable.write _ 7 (command.send "p" (some "b")) 4 true true _
      (reachable.write _ 7 (command.send "p" (some "a")) 4 true true _
        (reachable.write _ 7 (command.reg "p") 6 true true _
          (@reachable.init { max_messages := 1, max_msg_size := 250 }) rfl)
        rfl)
      rfl
  ⟨_, _, _, rfl, rfl, rfl, by decide, ⟨by decide, hreach⟩,
    (C24_mailbox_bounded { max_messages := 1, max_msg_size := 250 } _ (by decide) hreach).1⟩

/-- C25, as stated, fails: on a full mailbox (`max_messages = 1`, one message held,
`msg_count = 1`) a send of the three-character message "new" whose first allocation
fails returns -12, not 0, and leaves the mailbox empty, not holding "new"; and with
`max_messages = 0` the send to the (full) empty mailbox has no defined result. -/
theorem C25_send_counterexample :
    (∃ r, list_add_message_to_process { max_messages := 1, max_msg_size := 250 }
          { pid := 7, name := "p", msg_list := [⟨"old", 3⟩], msg_count := 1 } "new"
          false true = some r ∧
        r.1 = -12 ∧ r.1 ≠ 0 ∧ r.2.msg_list = [] ∧ r.2.msg_list ≠ [⟨"new", 3⟩]) ∧
      list_add_message_to_process { max_messages := 0, max_msg_size := 250 }
          { pid := 7, name := "p", msg_list := [], msg_count := 0 } "new" true true = none :=
  ⟨⟨_, rfl, by decide, by decide, by decide, by decide⟩, by decide⟩

/-- C25, amended: for a message no longer than `max_msg_size`.  When both allocations
of the send succeed: on a full mailbox that holds at least one message
(`msg_count = max_messages` = number of messages, at least 1) the call returns 0, the
mailbox becomes the old one without its first message followed by the new message, and
`msg_count` is as before; on a mailbox that is not full (`msg_count < max_messages`)
the call returns 0, the new message is appended at the tail and `msg_count` grows by
one.  When one of the two allocations fails, on a mailbox that is not full or holds a
message (so in both cases above), the call returns `-ENOMEM` and the new message is not
in the mailbox: what is left is the old mailbox, without its first message if
`msg_count` had reached `max_messages`. -/
theorem C25_send_fifo (p : mq_params) (proc : process_s) (data : String) (hwf : p.wf)
    (hlen : (data.length : Int) ≤ p.max_msg_size) :
    (proc.msg_count = p.max_messages → (proc.msg_list.length : Int) = p.max_messages →
        1 ≤ p.max_messages →
        ∃ r, list_add_message_to_process p proc data true true = some r ∧ r.1 = 0 ∧
          r.2.msg_list = proc.msg_list.tail ++ [⟨data, to_short data.length⟩] ∧
          r.2.msg_count = proc.msg_count ∧ r.2.pid = proc.pid ∧ r.2.name = proc.name) ∧
      (proc.msg_count < p.max_messages →
        ∃ r, list_add_message_to_process p proc data true true = some r ∧ r.1 = 0 ∧
          r.2.msg_list = proc.msg_list ++ [⟨data, to_short data.length⟩] ∧
          r.2.msg_count = proc.msg_count + 1 ∧ r.2.pid = proc.pid ∧ r.2.name = proc.name) ∧
      (∀ a1 a2, a1 = false ∨ a2 = false →
        proc.msg_count < p.max_messages ∨ proc.msg_list ≠ [] →
        ∃ r, list_add_message_to_process p proc data a1 a2 = some r ∧ r.1 = -ENOMEM ∧
          r.2.msg_list =
            (if proc.msg_count ≥ p.max_messages then proc.msg_list.tail else proc.msg_list) ∧
          r.2.pid = proc.pid ∧ r.2.name = proc.name) := by
  have htest := length_test_passes p data hwf hlen
  refine ⟨?_, ?_, ?_⟩
  · intro hcount hlist hmax
    have hfull : proc.msg_count ≥ p.max_messages := by omega
    cases hl : proc.msg_list with
    | nil =>
      rw [hl] at hlist
      simp at hlist
      omega
    | cons m rest =>
      unfold list_add_message_to_process
      simp only [hfull, if_true, hl, htest, if_false]
      exact ⟨_, rfl, rfl, rfl, by simp, rfl, rfl⟩
  · intro hnot
    have hfull : ¬ proc.msg_count ≥ p.max_messages := by omega
    unfold list_add_message_to_process
    simp only [hfull, if_false, htest, if_true]
    exact ⟨_, rfl, rfl, rfl, rfl, rfl, rfl⟩
  · intro a1 a2 hfail hdef
    by_cases hfull : proc.msg_count ≥ p.max_messages
    · cases hl : proc.msg_list with
      | nil =>
        rcases hdef with h | h
        · omega
        · exact absurd hl h
      | cons m rest =>
        unfold list_add_message_to_process
        simp only [hfull, if_true, hl, htest, if_false, List.tail_cons]
        rcases hfail with rfl | rfl
        · exact ⟨_, rfl, rfl, rfl, rfl, rfl⟩
        · cases a1
          · exact ⟨_, rfl, rfl, rfl, rfl, rfl⟩
          · exact ⟨_, rfl, rfl, rfl, rfl, rfl⟩
    · unfold list_add_message_to_process
      simp only [hfull, if_false, htest]
      rcases hfail with rfl | rfl
      · exact ⟨_, rfl, rfl, rfl, rfl, rfl⟩
      · cases a1
        · exact ⟨_, rfl, rfl, rfl, rfl, rfl⟩
        · exact ⟨_, rfl, rfl, rfl, rfl, rfl⟩

/-- C25, amended, with `max_messages = 2`: a send of "c" to the full mailbox ["a", "b"]
returns 0 and leaves ["b", "c"] with `msg_count` 2; a send of "b" to the mailbox ["a"]
returns 0 and leaves ["a", "b"] with `msg_count` 2; a send of "c" to the full mailbox
["a", "b"] whose second allocation fails returns -12 and leaves ["b"]. -/
theorem C25_send_fifo_witness :
    (({ max_messages := 2, max_msg_size := 250 } : mq_params).wf ∧
        (("c" : String).length : Int) ≤
          ({ max_messages := 2, max_msg_size := 250 } : mq_params).max_msg_size) ∧
      list_add_message_to_process { max_messages := 2, max_msg_size := 250 }
          { pid := 7, name := "p", msg_list := [⟨"a", 1⟩, ⟨"b", 1⟩], msg_count := 2 } "c"
          true true =
        some (0, { pid := 7, name := "p", msg_list := [⟨"b", 1⟩, ⟨"c", 1⟩], msg_count := 2 }) ∧
      list_add_message_to_process { max_messages := 2, max_msg_size := 250 }
          { pid := 7, name := "p", msg_list := [⟨"a", 1⟩], msg_count := 1 } "b" true true =
        some (0, { pid := 7, name := "p", msg_list := [⟨"a", 1⟩, ⟨"b", 1⟩], msg_count := 2 }) ∧
      list_add_message_to_process { max_messages := 2, max_msg_size := 250 }
          { pid := 7, name := "p", msg_list := [⟨"a", 1⟩, ⟨"b", 1⟩], msg_count := 2 } "c"
          true false =
        some (-12, { pid := 7, name := "p", msg_list := [⟨"b", 1⟩], msg_count := 1 }) ∧
      ∃ r, list_add_message_to_process { max_messages := 2, max_msg_size := 250 }
          { pid := 7, name := "p", msg_list := [⟨"a", 1⟩, ⟨"b", 1⟩], msg_count := 2 } "c"
          true true = some r ∧
        r.1 = 0 ∧
        r.2.msg_list =
          ([⟨"a", 1⟩, ⟨"b", 1⟩] : List message_s).tail ++
            [⟨"c", to_short (("c" : String).length : Int)⟩] :=
  ⟨⟨by decide, by decide⟩, by decide, by decide, by decide,
    let ⟨r, h1, h2, h3, _⟩ :=
      (C25_send_fifo { max_messages := 2, max_msg_size := 250 }
        { pid := 7, name := "p", msg_list := [⟨"a", 1⟩, ⟨"b", 1⟩], msg_count := 2 } "c"
        (by decide) (by decide)).1 (by decide) (by decide) (by decide)
    ⟨r, h1, h2, h3⟩⟩

/-- C26, the code at the failing input: a full mailbox (`max_messages = 1`, the message
"old" held, `msg_count = 1`) and a send of "hello", longer than `max_msg_size = 3`.  The
call returns -22, and the mailbox is left empty with `msg_count` 0: the oldest message
was unlinked before the length was tested. -/
theorem C26_rejected_send_evicts :
    ∃ r, list_add_message_to_process { max_messages := 1, max_msg_size := 3 }
        { pid := 7, name := "p", msg_list := [⟨"old", 3⟩], msg_count := 1 } "hello"
        true true = some r ∧
      r.1 = -EINVAL ∧ r.1 = -22 ∧ r.2.msg_list = [] ∧ r.2.msg_count = 0 ∧
      r.2 ≠ { pid := 7, name := "p", msg_list := [⟨"old", 3⟩], msg_count := 1 } :=
  ⟨_, rfl, by decide, by decide, by decide, by decide, by decide⟩

/-- C27: the read command on the first process named `name`, which holds m messages,
with n the number given (1 when none is given).  If m = 0 or m < n, `dev_write` returns
`-EINVAL` and leaves the process list as it was.  If 1 ≤ n ≤ m it returns `len` and the
mailbox loses exactly its first n messages: it was those n followed by what remains,
m - n messages in their order; every other process is untouched.  With no number given
and m ≥ 1 exactly the first message is removed. -/
theorem C27_read_command (p : mq_params) (pid : Int) (name : String) (num : Option Int)
    (len : Nat) (a1 a2 : Bool) (before after : List process_s) (proc : process_s)
    (hname : proc.name = name) (hfirst : ∀ q ∈ before, q.name ≠ name) :
    (proc.msg_list.length = 0 ∨ (proc.msg_list.length : Int) < num.getD 1 →
        dev_write p (before ++ proc :: after) pid (command.read name num) len a1 a2 =
          some (-EINVAL, before ++ proc :: after)) ∧
      (1 ≤ num.getD 1 → num.getD 1 ≤ (proc.msg_list.length : Int) →
        dev_write p (before ++ proc :: after) pid (command.read name num) len a1 a2 =
            some ((len : Int),
              before ++
                { proc with msg_list := proc.msg_list.drop (num.getD 1).toNat } :: after) ∧
          proc.msg_list =
            proc.msg_list.take (num.getD 1).toNat ++ proc.msg_list.drop (num.getD 1).toNat ∧
          (proc.msg_list.take (num.getD 1).toNat).length = (num.getD 1).toNat ∧
          ((proc.msg_list.drop (num.getD 1).toNat).length : Int) =
            proc.msg_list.length - num.getD 1) ∧
      (num = none → 1 ≤ proc.msg_list.length →
        dev_write p (before ++ proc :: after) pid (command.read name num) len a1 a2 =
          some ((len : Int), before ++ { proc with msg_list := proc.msg_list.tail } :: after)) := by
  have hat := dev_write_read_at name (num.getD 1) len before after proc hname hfirst
  refine ⟨?_, ?_, ?_⟩
  · intro h
    simp only [dev_write, hat]
    rcases h with h | h
    · simp [h]
    · by_cases h0 : (proc.msg_list.length : Int) = 0
      · simp [h0]
      · simp [h0, h]
  · intro h1 h2
    have h0 : ¬ (proc.msg_list.length : Int) = 0 := by omega
    have hlt : ¬ (proc.msg_list.length : Int) < num.getD 1 := by omega
    refine ⟨?_, (List.take_append_drop _ _).symm, ?_, ?_⟩
    · simp only [dev_write, hat, h0, hlt, if_false]
    · rw [List.length_take]
      omega
    · rw [List.length_drop]
      omega
  · intro hnone hm
    subst hnone
    have h0 : ¬ (proc.msg_list.length : Int) = 0 := by omega
    have hlt : ¬ (proc.msg_list.length : Int) < (none : Option Int).getD 1 := by
      simp only [Option.getD_none]
      omega
    simp only [dev_write, hat, h0, hlt, if_false]
    simp

/-- C27 on the process list [a, p] where `p` holds "x", "y", "z": `/read p 2` returns
the length and leaves "z"; `/read p` leaves "y", "z"; `/read p 4` returns -22 and
changes nothing; `/read a 1`, on the empty mailbox of `a`, returns -22. -/
theorem C27_read_command_witness :
    (({ pid := 7, name := "p", msg_list := [⟨"x", 1⟩, ⟨"y", 1⟩, ⟨"z", 1⟩], msg_count := 3 } :
          process_s).name = "p" ∧
        ∀ q ∈ [({ pid := 3, name := "a", msg_list := [], msg_count := 0 } : process_s)],
          q.name ≠ "p") ∧
      dev_write mq_defaults
          [{ pid := 3, name := "a", msg_list := [], msg_count := 0 },
            { pid := 7, name := "p", msg_list := [⟨"x", 1⟩, ⟨"y", 1⟩, ⟨"z", 1⟩], msg_count := 3 }]
          7 (command.read "p" (some 2)) 9 true true =
        some (9,
          [{ pid := 3, name := "a", msg_list := [], msg_count := 0 },
            { pid := 7, name := "p", msg_list := [⟨"z", 1⟩], msg_count := 3 }]) ∧
      dev_write mq_defaults
          [{ pid := 3, name := "a", msg_list := [], msg_count := 0 },
            { pid := 7, name := "p", msg_list := [⟨"x", 1⟩, ⟨"y", 1⟩, ⟨"z", 1⟩], msg_count := 3 }]
          7 (command.read "p" none) 7 true true =
        some (7,
          [{ pid := 3, name := "a", msg_list := [], msg_count := 0 },
            { pid := 7, name := "p", msg_list := [⟨"y", 1⟩, ⟨"z", 1⟩], msg_count := 3 }]) ∧
      dev_write mq_defaults
          [{ pid := 3, name := "a", msg_list := [], msg_count := 0 },
            { pid := 7, name := "p", msg_list := [⟨"x", 1⟩, ⟨"y", 1⟩, ⟨"z", 1⟩], msg_count := 3 }]
          7 (command.read "a" (some 1)) 9 true true =
        some (-22,
          [{ pid := 3, name := "a", msg_list := [], msg_count := 0 },
            { pid := 7, name := "p", msg_list := [⟨"x", 1⟩, ⟨"y", 1⟩, ⟨"z", 1⟩], msg_count := 3 }]) ∧
      dev_write mq_defaults
          ([{ pid := 3, name := "a", msg_list := [], msg_count := 0 }] ++
            { pid := 7, name := "p", msg_list := [⟨"x", 1⟩, ⟨"y", 1⟩, ⟨"z", 1⟩], msg_count := 3 } ::
              [])
          7 (command.read "p" (some 4)) 9 true true =
        some (-EINVAL,
          [{ pid := 3, name := "a", msg_list := [], msg_count := 0 }] ++
            { pid := 7, name := "p", msg_list := [⟨"x", 1⟩, ⟨"y", 1⟩, ⟨"z", 1⟩], msg_count := 3 } ::
              []) :=
  ⟨⟨by decide, by decide⟩, by decide, by decide, by decide,
    (C27_read_command mq_defaults 7 "p" (some 4) 9 true true
      [{ pid := 3, name := "a", msg_list := [], msg_count := 0 }] []
      { pid := 7, name := "p", msg_list := [⟨"x", 1⟩, ⟨"y", 1⟩, ⟨"z", 1⟩], msg_count := 3 }
      (by decide) (by decide)).1 (Or.inr (by decide))⟩

end Mqueue
